import Mathlib

/-!
Shallow embedding of the uvie-rs incremental Vietnamese input-method engine
(src/engine.rs, src/modes.rs, with the vowel/tone helpers of crate::tone as
they appear in src/lib.rs).  Raw-buffer bytes are modelled as `Nat` values
below 256, rendered output as `List Char`.  The fixed 32-byte scratch arrays
of the Rust pipeline are modelled as lists built by appends and splices; a
second, bounds-checked variant of every loop (suffix `C`) returns `none`
exactly when the corresponding Rust array write or splice would be out of
bounds, so that totality of `feed` is a real theorem.
-/

namespace Uvie

/-- Attribute bit IS_VOWEL = 1 << 0 from src/modes.rs. -/
def IS_VOWEL : Nat := 1

/-- Attribute bit IS_MODIFIER = 1 << 1 from src/modes.rs. -/
def IS_MODIFIER : Nat := 2

/-- Attribute bit IS_TONE_KEY = 1 << 2 from src/modes.rs. -/
def IS_TONE_KEY : Nat := 4

/-- Input methods, from src/modes.rs. -/
inductive InputMethod where
  | telex
  | vni
deriving DecidableEq, Repr

/-- Byte classification table CLASSIFY_TELEX from src/modes.rs:
vowels a e o u i y, modifiers w d, tone keys s f r x j z, 0 otherwise. -/
def classify_telex (b : Nat) : Nat :=
  if b = 'a'.toNat ∨ b = 'e'.toNat ∨ b = 'o'.toNat ∨ b = 'u'.toNat ∨ b = 'i'.toNat ∨ b = 'y'.toNat then IS_VOWEL
  else if b = 'w'.toNat ∨ b = 'd'.toNat then IS_MODIFIER
  else if b = 's'.toNat ∨ b = 'f'.toNat ∨ b = 'r'.toNat ∨ b = 'x'.toNat ∨ b = 'j'.toNat ∨ b = 'z'.toNat then IS_TONE_KEY
  else 0

/-- Byte classification table CLASSIFY_VNI from src/modes.rs:
vowels a e o u i y, tone keys 0..5, 0 otherwise. -/
def classify_vni (b : Nat) : Nat :=
  if b = 'a'.toNat ∨ b = 'e'.toNat ∨ b = 'o'.toNat ∨ b = 'u'.toNat ∨ b = 'i'.toNat ∨ b = 'y'.toNat then IS_VOWEL
  else if b = '0'.toNat ∨ b = '1'.toNat ∨ b = '2'.toNat ∨ b = '3'.toNat ∨ b = '4'.toNat ∨ b = '5'.toNat then IS_TONE_KEY
  else 0

/-- Tone-id table TONE_TELEX from src/modes.rs (s f r x j z -> 1 2 3 4 5 0). -/
def tone_telex (b : Nat) : Nat :=
  if b = 's'.toNat then 1
  else if b = 'f'.toNat then 2
  else if b = 'r'.toNat then 3
  else if b = 'x'.toNat then 4
  else if b = 'j'.toNat then 5
  else 0

/-- Tone-id table TONE_VNI from src/modes.rs (digits 0..5 map to 0..5). -/
def tone_vni (b : Nat) : Nat :=
  if b = '1'.toNat then 1
  else if b = '2'.toNat then 2
  else if b = '3'.toNat then 3
  else if b = '4'.toNat then 4
  else if b = '5'.toNat then 5
  else 0

/-- W_TARGET_TELEX from src/modes.rs: a o u d are eligible w anchors. -/
def w_target_telex (b : Nat) : Bool :=
  b = 'a'.toNat || b = 'o'.toNat || b = 'u'.toNat || b = 'd'.toNat

/-- W_TARGET_VNI from src/modes.rs: no byte is a w anchor. -/
def w_target_vni (_ : Nat) : Bool := false

/-- Telex pairwise resolver resolve_telex from src/modes.rs. -/
def resolve_telex (curr : Nat) (next : Option Nat) : Char × Bool :=
  if curr = 'a'.toNat ∧ next = some 'a'.toNat then ('â', true)
  else if curr = 'a'.toNat ∧ next = some 'w'.toNat then ('ă', true)
  else if curr = 'e'.toNat ∧ next = some 'e'.toNat then ('ê', true)
  else if curr = 'o'.toNat ∧ next = some 'o'.toNat then ('ô', true)
  else if curr = 'o'.toNat ∧ next = some 'w'.toNat then ('ơ', true)
  else if curr = 'u'.toNat ∧ next = some 'w'.toNat then ('ư', true)
  else if curr = 'd'.toNat ∧ next = some 'd'.toNat then ('đ', true)
  else if curr = 'w'.toNat then ('ư', false)
  else (Char.ofNat curr, false)

/-- VNI pairwise resolver resolve_vni from src/modes.rs. -/
def resolve_vni (curr : Nat) (next : Option Nat) : Char × Bool :=
  if curr = 'a'.toNat ∧ next = some '6'.toNat then ('â', true)
  else if curr = 'a'.toNat ∧ next = some '8'.toNat then ('ă', true)
  else if curr = 'e'.toNat ∧ next = some '6'.toNat then ('ê', true)
  else if curr = 'o'.toNat ∧ next = some '6'.toNat then ('ô', true)
  else if curr = 'o'.toNat ∧ next = some '7'.toNat then ('ơ', true)
  else if curr = 'u'.toNat ∧ next = some '7'.toNat then ('ư', true)
  else if curr = 'd'.toNat ∧ next = some '9'.toNat then ('đ', true)
  else (Char.ofNat curr, false)

/-- Mode descriptor, from src/modes.rs. -/
structure Mode where
  classify : Nat → Nat
  tone : Nat → Nat
  w_target : Nat → Bool
  resolver : Nat → Option Nat → Char × Bool
  enable_w_bubbling : Bool

/-- TELEX_MODE from src/modes.rs. -/
def TELEX_MODE : Mode :=
  { classify := classify_telex, tone := tone_telex, w_target := w_target_telex,
    resolver := resolve_telex, enable_w_bubbling := true }

/-- VNI_MODE from src/modes.rs. -/
def VNI_MODE : Mode :=
  { classify := classify_vni, tone := tone_vni, w_target := w_target_vni,
    resolver := resolve_vni, enable_w_bubbling := false }

/-- Mode selector mode_for from src/modes.rs. -/
def mode_for (method : InputMethod) : Mode :=
  match method with
  | InputMethod.telex => TELEX_MODE
  | InputMethod.vni => VNI_MODE

/-- Vietnamese vowel test is_vowel_unicode from crate::tone (src/lib.rs):
membership in the string of a e i o u y and the six modified vowels. -/
def is_vowel_unicode (c : Char) : Bool :=
  c = 'a' || c = 'e' || c = 'i' || c = 'o' || c = 'u' || c = 'y' ||
  c = 'â' || c = 'ê' || c = 'ô' || c = 'ă' || c = 'ơ' || c = 'ư'

/-- Tone-stripping step of map_vowel_with_tone (src/lib.rs): map a toned
vowel back to its base form; anything else is returned unchanged. -/
def base_vowel (c : Char) : Char :=
  match c with
  | 'á' | 'à' | 'ả' | 'ã' | 'ạ' => 'a'
  | 'ắ' | 'ằ' | 'ẳ' | 'ẵ' | 'ặ' => 'ă'
  | 'ấ' | 'ầ' | 'ẩ' | 'ẫ' | 'ậ' => 'â'
  | 'é' | 'è' | 'ẻ' | 'ẽ' | 'ẹ' => 'e'
  | 'ế' | 'ề' | 'ể' | 'ễ' | 'ệ' => 'ê'
  | 'í' | 'ì' | 'ỉ' | 'ĩ' | 'ị' => 'i'
  | 'ó' | 'ò' | 'ỏ' | 'õ' | 'ọ' => 'o'
  | 'ố' | 'ồ' | 'ổ' | 'ỗ' | 'ộ' => 'ô'
  | 'ớ' | 'ờ' | 'ở' | 'ỡ' | 'ợ' => 'ơ'
  | 'ú' | 'ù' | 'ủ' | 'ũ' | 'ụ' => 'u'
  | 'ứ' | 'ừ' | 'ử' | 'ữ' | 'ự' => 'ư'
  | 'ý' | 'ỳ' | 'ỷ' | 'ỹ' | 'ỵ' => 'y'
  | _ => c

/-- Vowel-with-tone table map_vowel_with_tone from crate::tone (src/lib.rs):
strip the tone, then apply tone id 1..5; tone 0 returns the base form, and
an unknown (base, tone) pair returns the original character. -/
def map_vowel_with_tone (c : Char) (tone : Nat) : Char :=
  let base := base_vowel c
  if tone = 0 then base
  else
    match base, tone with
    | 'a', 1 => 'á'
    | 'a', 2 => 'à'
    | 'a', 3 => 'ả'
    | 'a', 4 => 'ã'
    | 'a', 5 => 'ạ'
    | 'ă', 1 => 'ắ'
    | 'ă', 2 => 'ằ'
    | 'ă', 3 => 'ẳ'
    | 'ă', 4 => 'ẵ'
    | 'ă', 5 => 'ặ'
    | 'â', 1 => 'ấ'
    | 'â', 2 => 'ầ'
    | 'â', 3 => 'ẩ'
    | 'â', 4 => 'ẫ'
    | 'â', 5 => 'ậ'
    | 'e', 1 => 'é'
    | 'e', 2 => 'è'
    | 'e', 3 => 'ẻ'
    | 'e', 4 => 'ẽ'
    | 'e', 5 => 'ẹ'
    | 'ê', 1 => 'ế'
    | 'ê', 2 => 'ề'
    | 'ê', 3 => 'ể'
    | 'ê', 4 => 'ễ'
    | 'ê', 5 => 'ệ'
    | 'i', 1 => 'í'
    | 'i', 2 => 'ì'
    | 'i', 3 => 'ỉ'
    | 'i', 4 => 'ĩ'
    | 'i', 5 => 'ị'
    | 'o', 1 => 'ó'
    | 'o', 2 => 'ò'
    | 'o', 3 => 'ỏ'
    | 'o', 4 => 'õ'
    | 'o', 5 => 'ọ'
    | 'ô', 1 => 'ố'
    | 'ô', 2 => 'ồ'
    | 'ô', 3 => 'ổ'
    | 'ô', 4 => 'ỗ'
    | 'ô', 5 => 'ộ'
    | 'ơ', 1 => 'ớ'
    | 'ơ', 2 => 'ờ'
    | 'ơ', 3 => 'ở'
    | 'ơ', 4 => 'ỡ'
    | 'ơ', 5 => 'ợ'
    | 'u', 1 => 'ú'
    | 'u', 2 => 'ù'
    | 'u', 3 => 'ủ'
    | 'u', 4 => 'ũ'
    | 'u', 5 => 'ụ'
    | 'ư', 1 => 'ứ'
    | 'ư', 2 => 'ừ'
    | 'ư', 3 => 'ử'
    | 'ư', 4 => 'ữ'
    | 'ư', 5 => 'ự'
    | 'y', 1 => 'ý'
    | 'y', 2 => 'ỳ'
    | 'y', 3 => 'ỷ'
    | 'y', 4 => 'ỹ'
    | 'y', 5 => 'ỵ'
    | _, _ => c

/-- State of the phase-1 scan of render_str (src/engine.rs lines 79-164):
the compacted working buffer, the remembered tone key, the cancellation
flag, the consecutive-run tracker, and the deferred-bubbling flags. -/
structure P1State where
  toggled : List Nat
  last_tone_char : Nat
  tone_cancelled : Bool
  run_char : Nat
  run_count : Nat
  seen_mod : Nat
  need_mod_bubble : Bool
  has_w : Bool
deriving DecidableEq, Repr

/-- Initial phase-1 state. -/
def p1Init : P1State :=
  { toggled := [], last_tone_char := 0, tone_cancelled := false,
    run_char := 0, run_count := 0, seen_mod := 0,
    need_mod_bubble := false, has_w := false }

/-- Slot index for the four bubbling symbols a e o d, shared by the phase-1
flag tracking (src/engine.rs lines 153-159) and the phase-2 bubbling match
(lines 198-204). -/
def modFlagSlot (b : Nat) : Option Nat :=
  if b = 'a'.toNat then some 0
  else if b = 'e'.toNat then some 1
  else if b = 'o'.toNat then some 2
  else if b = 'd'.toNat then some 3
  else none

/-- Deferred-bubbling flag update of the phase-1 non-tone branch
(src/engine.rs lines 152-160). -/
def p1Flags (b : Nat) (st : P1State) : P1State :=
  match modFlagSlot b with
  | some s =>
    { st with
      need_mod_bubble := st.need_mod_bubble || decide (st.seen_mod &&& (1 <<< s) ≠ 0),
      seen_mod := st.seen_mod ||| (1 <<< s) }
  | none => if b = 'w'.toNat then { st with has_w := true } else st

/-- Cluster test of phase-1 rule 2 (src/engine.rs line 109): is the previous
raw byte one of t p f c b d g k. -/
def rClusterPrev (prev : Nat) : Prop :=
  prev = 't'.toNat ∨ prev = 'p'.toNat ∨ prev = 'f'.toNat ∨ prev = 'c'.toNat ∨
  prev = 'b'.toNat ∨ prev = 'd'.toNat ∨ prev = 'g'.toNat ∨ prev = 'k'.toNat

instance (prev : Nat) : Decidable (rClusterPrev prev) := by
  unfold rClusterPrev
  infer_instance

/-- One iteration of the phase-1 loop of render_str (src/engine.rs lines
91-164).  The flag first says this is index 0; prev is the previous raw
byte (meaningful when first is false). -/
def p1Step (m : Mode) (first : Bool) (prev : Nat) (b : Nat) (st : P1State) : P1State :=
  if m.classify b &&& IS_TONE_KEY ≠ 0 then
    if first then
      { st with run_char := b, run_count := 1, toggled := st.toggled ++ [b] }
    else if b = 'r'.toNat ∧ rClusterPrev prev then
      { st with run_char := b, run_count := 1, toggled := st.toggled ++ [b] }
    else if b = st.last_tone_char then
      { st with
        toggled := if st.toggled.length < 32 then st.toggled ++ [b] else st.toggled,
        last_tone_char := 0, tone_cancelled := true }
    else if st.tone_cancelled then
      { st with toggled := if st.toggled.length < 32 then st.toggled ++ [b] else st.toggled }
    else
      { st with last_tone_char := b }
  else
    if b = st.run_char then
      if st.run_count + 1 = 3 ∧ (b = 'a'.toNat ∨ b = 'e'.toNat ∨ b = 'o'.toNat ∨ b = 'd'.toNat) then
        { st with toggled := st.toggled.dropLast, run_count := 1 }
      else
        let st1 := p1Flags b { st with run_count := st.run_count + 1 }
        { st1 with toggled := st1.toggled ++ [b] }
    else
      let st1 := p1Flags b { st with run_char := b, run_count := 1 }
      { st1 with toggled := st1.toggled ++ [b] }

/-- The phase-1 loop over the remaining bytes. -/
def p1Go (m : Mode) (first : Bool) (prev : Nat) : List Nat → P1State → P1State
  | [], st => st
  | b :: rest, st => p1Go m false b rest (p1Step m first prev b st)

/-- Phase 1 of render_str on a full byte buffer. -/
def phase1 (m : Mode) (bytes : List Nat) : P1State :=
  p1Go m true 0 bytes p1Init

/-- Sentinel byte for a literal w produced by double-w cancellation
(src/engine.rs line 169). -/
def W_LITERAL : Nat := 1

/-- Splice a value into a list at an index, modelling the
copy_within-then-write idiom of src/engine.rs lines 210-211 and 243-244. -/
def insertAt (l : List Nat) (i : Nat) (a : Nat) : List Nat :=
  l.take i ++ a :: l.drop i

/-- State of the phase-2 modifier-bubbling scan (src/engine.rs lines
173-230): the output buffer and the tracked first-occurrence position of
each of a e o d (0xFF = none in the source). -/
structure BubState where
  buf : List Nat
  lpA : Option Nat
  lpE : Option Nat
  lpO : Option Nat
  lpD : Option Nat
deriving DecidableEq, Repr

/-- Read the tracked position of slot s. -/
def lpGet (st : BubState) (s : Nat) : Option Nat :=
  if s = 0 then st.lpA else if s = 1 then st.lpE else if s = 2 then st.lpO else st.lpD

/-- Write the tracked position of slot s. -/
def lpSet (st : BubState) (s : Nat) (v : Option Nat) : BubState :=
  if s = 0 then { st with lpA := v }
  else if s = 1 then { st with lpE := v }
  else if s = 2 then { st with lpO := v }
  else { st with lpD := v }

/-- Shift one tracked position right if it sits at or after the splice
point (src/engine.rs lines 215-219). -/
def shiftPos (ia : Nat) (p : Option Nat) : Option Nat :=
  match p with
  | none => none
  | some v => if ia ≤ v then some (v + 1) else some v

/-- Shift all four tracked positions after a splice. -/
def lpShift (st : BubState) (ia : Nat) : BubState :=
  { st with lpA := shiftPos ia st.lpA, lpE := shiftPos ia st.lpE,
            lpO := shiftPos ia st.lpO, lpD := shiftPos ia st.lpD }

/-- The phase-2 modifier-bubbling loop (src/engine.rs lines 179-230):
double-w collapse to the sentinel, and free-style bubbling of a e o d. -/
def bubGo (m : Mode) : List Nat → BubState → BubState
  | [], st => st
  | c :: rest, st =>
    if c = 'w'.toNat ∧ m.enable_w_bubbling then
      match rest with
      | c2 :: rest2 =>
        if c2 = 'w'.toNat then
          bubGo m rest2 { st with buf := st.buf ++ [W_LITERAL] }
        else
          bubGo m (c2 :: rest2) { st with buf := st.buf ++ [c] }
      | [] => { st with buf := st.buf ++ [c] }
    else
      match modFlagSlot c with
      | some s =>
        match lpGet st s with
        | some p =>
          bubGo m rest (lpShift (lpSet { st with buf := insertAt st.buf (p + 1) c } s none) (p + 1))
        | none =>
          bubGo m rest (lpSet { st with buf := st.buf ++ [c] } s (some st.buf.length))
      | none => bubGo m rest { st with buf := st.buf ++ [c] }

/-- State of the phase-2 w-bubbling scan (src/engine.rs lines 233-257). -/
structure WState where
  out : List Nat
  last_target_pos : Option Nat
deriving DecidableEq, Repr

/-- The phase-2 w-bubbling loop: a w splices in right after the most recent
eligible anchor, other bytes append and update the anchor. -/
def wGo (m : Mode) : List Nat → WState → WState
  | [], st => st
  | c :: rest, st =>
    if c = 'w'.toNat then
      match st.last_target_pos with
      | some tp => wGo m rest { st with out := insertAt st.out (tp + 1) 'w'.toNat }
      | none => wGo m rest { st with out := st.out ++ ['w'.toNat] }
    else
      wGo m rest
        { out := st.out ++ [c],
          last_target_pos := if m.w_target c then some st.out.length else st.last_target_pos }

/-- Phase 2 of render_str (src/engine.rs lines 166-265): run the fused
modifier-bubbling pass, then the w pass, only when their flags demand it. -/
def phase2 (m : Mode) (st : P1State) : List Nat :=
  let need_w_pass := st.has_w && m.enable_w_bubbling
  if st.need_mod_bubble || need_w_pass then
    let buf := (bubGo m st.toggled { buf := [], lpA := none, lpE := none, lpO := none, lpD := none }).buf
    if need_w_pass then (wGo m buf { out := [], last_target_pos := none }).out
    else buf
  else st.toggled

/-- Test of the uow rewrite (src/engine.rs lines 294-296): the two bytes
after the current u are o and w. -/
def uowNext (rest : List Nat) : Bool :=
  match rest with
  | o :: w :: _ => o = 'o'.toNat && w = 'w'.toNat
  | _ => false

/-- Phase-3 resolution loop of render_str (src/engine.rs lines 272-322).
prev carries the byte at the previous index of the post-bubble buffer
(toggled[i-1] in the source), none at index 0.  The sentinel emits a
literal w; the uow special case rewrites u to ư unless the previous byte
is q or Q; a consumed digraph advances by two. -/
def resGo (m : Mode) (prev : Option Nat) : List Nat → List Char
  | [] => []
  | c :: rest =>
    if c = W_LITERAL then 'w' :: resGo m (some c) rest
    else
      let r := (m.resolver c rest.head?).1
      let consumed := (m.resolver c rest.head?).2
      let r2 :=
        if c = 'u'.toNat ∧ consumed = false ∧ uowNext rest = true ∧
            ¬(prev = some 'q'.toNat ∨ prev = some 'Q'.toNat) then 'ư'
        else r
      if consumed then
        match rest with
        | n :: rest2 => r2 :: resGo m (some n) rest2
        | [] => [r2]
      else r2 :: resGo m (some c) rest

/-- Vowel-mask accumulator: bit i is set when position i of the resolved
character buffer holds a Vietnamese vowel and i < 16, exactly matching the
in-loop accumulation vowel_mask |= 1 << c_len of src/engine.rs lines
312-316 (the bit for a character is set at its write index). -/
def vmAux : List Char → Nat → Nat
  | [], _ => 0
  | c :: rest, i => (if i < 16 ∧ is_vowel_unicode c = true then 1 <<< i else 0) ||| vmAux rest (i + 1)

/-- Vowel mask of a resolved character buffer. -/
def vowelMask (chars : List Char) : Nat := vmAux chars 0

/-- Position-indexed o/u masks of is_invalid_vietnamese_chars
(src/engine.rs lines 362-375), with the loop break at index 32. -/
def ouMaskAux : List Char → Nat → Nat × Nat
  | [], _ => (0, 0)
  | c :: rest, idx =>
    if 32 ≤ idx then (0, 0)
    else
      let p := ouMaskAux rest (idx + 1)
      (if c = 'o' then p.1 ||| (1 <<< idx) else p.1,
       if c = 'u' then p.2 ||| (1 <<< idx) else p.2)

/-- Trailing-zero count of a u16 value (u16::trailing_zeros): the lowest
set bit among bits 0..15, or 16 when none is set. -/
def trailingZeros16 (n : Nat) : Nat :=
  ((List.range 16).find? (fun i => n.testBit i)).getD 16

/-- Population count of a u16 value (u16::count_ones). -/
def countOnes16 (n : Nat) : Nat :=
  (List.range 16).countP (fun i => n.testBit i)

/-- The 24 consonant pairs marked in INVALID_PAIR_TABLE (src/engine.rs
lines 7-24), as byte pairs. -/
def INVALID_PAIRS : List (Nat × Nat) :=
  [('c'.toNat, 'l'.toNat), ('f'.toNat, 'l'.toNat), ('b'.toNat, 'l'.toNat), ('g'.toNat, 'l'.toNat),
   ('s'.toNat, 'l'.toNat), ('p'.toNat, 'l'.toNat),
   ('b'.toNat, 'r'.toNat), ('p'.toNat, 'r'.toNat), ('d'.toNat, 'r'.toNat), ('f'.toNat, 'r'.toNat),
   ('g'.toNat, 'r'.toNat), ('k'.toNat, 'r'.toNat),
   ('s'.toNat, 't'.toNat), ('s'.toNat, 'p'.toNat), ('s'.toNat, 'k'.toNat),
   ('p'.toNat, 't'.toNat), ('p'.toNat, 'c'.toNat), ('p'.toNat, 'g'.toNat), ('p'.toNat, 'q'.toNat),
   ('p'.toNat, 's'.toNat), ('p'.toNat, 'k'.toNat), ('p'.toNat, 'd'.toNat), ('p'.toNat, 'f'.toNat),
   ('p'.toNat, 'b'.toNat)]

/-- Table index (c1 - b'a') * 26 + (c2 - b'a') of INVALID_PAIR_TABLE. -/
def pairIndex (c1 c2 : Nat) : Nat :=
  (c1 - 'a'.toNat) * 26 + (c2 - 'a'.toNat)

/-- Lookup in the static INVALID_PAIR_TABLE: true exactly at the indices
marked by the 24 pairs. -/
def INVALID_PAIR_TABLE (idx : Nat) : Bool :=
  (INVALID_PAIRS.map (fun p => pairIndex p.1 p.2)).contains idx

/-- Validation predicate is_invalid_vietnamese_chars of src/engine.rs lines
357-405, on the resolved character buffer and its vowel mask. -/
def is_invalid_vietnamese_chars (chars : List Char) (vowel_mask : Nat) : Bool :=
  if vowel_mask = 0 then decide (1 < chars.length)
  else
    let mo := (ouMaskAux chars 0).1
    let mu := (ouMaskAux chars 0).2
    if mo &&& (mu >>> 1) ≠ 0 then true
    else
      let first_vowel_pos := trailingZeros16 vowel_mask
      if 3 ≤ first_vowel_pos then
        if first_vowel_pos = 3 ∧ 3 ≤ chars.length ∧ chars.getD 0 ' ' = 'n' ∧
            chars.getD 1 ' ' = 'g' ∧ chars.getD 2 ' ' = 'h' then false
        else true
      else if first_vowel_pos = 2 then
        let c1 := (chars.getD 0 ' ').toNat
        let c2 := (chars.getD 1 ' ').toNat
        if 'a'.toNat ≤ c1 ∧ c1 ≤ 'z'.toNat ∧ 'a'.toNat ≤ c2 ∧ c2 ≤ 'z'.toNat then
          INVALID_PAIR_TABLE (pairIndex c1 c2)
        else false
      else false

/-- Open-pair predicate of apply_tone_in_place (src/engine.rs lines
436-443). -/
def openPair (f sc : Char) : Bool :=
  (f = 'i' && (sc = 'a' || sc = 'u')) ||
  (f = 'u' && (sc = 'a' || sc = 'e')) ||
  (f = 'ư' && (sc = 'a' || sc = 'u')) ||
  (f = 'a' && (sc = 'o' || sc = 'e' || sc = 'i' || sc = 'u' || sc = 'y')) ||
  (f = 'e' && (sc = 'o' || sc = 'u')) ||
  (f = 'o' && sc = 'i') ||
  (f = 'â' && (sc = 'y' || sc = 'u'))

/-- Two-vowel target choice of apply_tone_in_place (src/engine.rs lines
415-467): prefer-first predicates, open pairs, the qu/gi prefix exception,
then the resolution order. -/
def twoVowelTarget (chars : List Char) (first second : Nat) : Nat :=
  let f := chars.getD first (Char.ofNat 0)
  let sc := chars.getD second (Char.ofNat 0)
  let prefer_first0 := (f = 'u' || f = 'ư') && sc = 'i'
  let f_is_modified := f = 'ơ' || f = 'ô' || f = 'ê' || f = 'â' || f = 'ă'
  let sc_is_plain := sc = 'a' || sc = 'e' || sc = 'i' || sc = 'o' || sc = 'u' || sc = 'y'
  let prefer_first1 := prefer_first0 || (f_is_modified && sc_is_plain)
  let is_open_pair1 := openPair f sc
  let quGi :=
    decide (2 ≤ chars.length) &&
    (((chars.getD 0 (Char.ofNat 0) = 'q' || chars.getD 0 (Char.ofNat 0) = 'Q') &&
      (chars.getD 1 (Char.ofNat 0) = 'u' || chars.getD 1 (Char.ofNat 0) = 'U') &&
      decide (first = 1)) ||
     ((chars.getD 0 (Char.ofNat 0) = 'g' || chars.getD 0 (Char.ofNat 0) = 'G') &&
      (chars.getD 1 (Char.ofNat 0) = 'i' || chars.getD 1 (Char.ofNat 0) = 'I') &&
      decide (first = 1)))
  let prefer_first := prefer_first1 && !quGi
  let is_open_pair := is_open_pair1 && !quGi
  if prefer_first then first
  else if is_open_pair then
    if second + 1 < chars.length then second else first
  else second

/-- Phase-5 tone placement apply_tone_in_place of src/engine.rs lines
407-474. -/
def apply_tone_in_place (chars : List Char) (mask tone : Nat) : List Char :=
  if countOnes16 mask = 0 then chars
  else
    let target_pos :=
      if countOnes16 mask = 1 then trailingZeros16 mask
      else if countOnes16 mask = 2 then
        let first := trailingZeros16 mask
        let second := trailingZeros16 (mask &&& (65535 ^^^ (1 <<< first)))
        twoVowelTarget chars first second
      else trailingZeros16 (mask &&& (65535 ^^^ (1 <<< trailingZeros16 mask)))
    if target_pos < chars.length then
      chars.set target_pos (map_vowel_with_tone (chars.getD target_pos (Char.ofNat 0)) tone)
    else chars

/-- UTF-8 encoding of one character, as String::as_bytes exposes the raw
buffer to the render pipeline. -/
def utf8Char (c : Char) : List Nat :=
  let n := c.toNat
  if n < 128 then [n]
  else if n < 2048 then [192 + n / 64, 128 + n % 64]
  else if n < 65536 then [224 + n / 4096, 128 + n / 64 % 64, 128 + n % 64]
  else [240 + n / 262144, 128 + n / 4096 % 64, 128 + n / 64 % 64, 128 + n % 64]

/-- UTF-8 bytes of the raw buffer. -/
def utf8Bytes (l : List Char) : List Nat :=
  (l.map utf8Char).flatten

/-- Unicode White_Space test matching Rust char::is_whitespace. -/
def is_whitespace (c : Char) : Bool :=
  [9, 10, 11, 12, 13, 32, 133, 160, 5760, 8192, 8193, 8194, 8195, 8196, 8197,
   8198, 8199, 8200, 8201, 8202, 8232, 8233, 8239, 8287, 12288].contains c.toNat

/-- ASCII lowercasing matching Rust char::to_ascii_lowercase: only A..Z is
mapped, every other character is unchanged. -/
def to_ascii_lowercase (c : Char) : Char :=
  if 'A'.toNat ≤ c.toNat ∧ c.toNat ≤ 'Z'.toNat then Char.ofNat (c.toNat + 32) else c

/-- Phase-1 state reached by a raw buffer: phase 1 runs on the raw UTF-8
bytes truncated to 32 (src/engine.rs line 76). -/
def pipe1 (m : Mode) (raw : List Char) : P1State :=
  phase1 m ((utf8Bytes raw).take 32)

/-- Resolved character buffer of a raw buffer (after phases 1-3). -/
def pipeChars (m : Mode) (raw : List Char) : List Char :=
  resGo m none (phase2 m (pipe1 m raw))

/-- The pre-validation fallback condition of render_str (src/engine.rs
lines 327-334): no vowels, a tone key was stripped and not cancelled, and
no modifier produced a non-ASCII character. -/
def vowelless_fallback (m : Mode) (raw : List Char) : Bool :=
  let st := pipe1 m raw
  let chars := pipeChars m raw
  vowelMask chars = 0 && st.last_tone_char ≠ 0 && !st.tone_cancelled &&
    chars.all (fun c => decide (c.toNat < 128))

/-- The combined condition under which render_str abandons the rendering
and echoes the raw buffer (src/engine.rs lines 327-341). -/
def render_fallback (m : Mode) (raw : List Char) : Bool :=
  vowelless_fallback m raw ||
    is_invalid_vietnamese_chars (pipeChars m raw) (vowelMask (pipeChars m raw))

/-- The rendering render_str keeps when validation passes: the resolved
characters with the remembered tone applied (src/engine.rs lines 343-354). -/
def kept_output (m : Mode) (raw : List Char) : List Char :=
  let st := pipe1 m raw
  let chars := pipeChars m raw
  if 0 < st.last_tone_char then
    apply_tone_in_place chars (vowelMask chars) (m.tone st.last_tone_char)
  else chars

/-- render_str of src/engine.rs lines 69-355: the full render pass of one
raw buffer, producing the output-buffer contents, with the three sequential
returns of the source (vowel-less fallback, validation fallback, tone
placement). -/
def render_str (m : Mode) (raw : List Char) : List Char :=
  if raw = [] then []
  else
    let bytes := (utf8Bytes raw).take 32
    let st := phase1 m bytes
    let chars := resGo m none (phase2 m st)
    let vowel_mask := vowelMask chars
    if vowel_mask = 0 && st.last_tone_char ≠ 0 && !st.tone_cancelled &&
        chars.all (fun c => decide (c.toNat < 128)) then raw
    else if is_invalid_vietnamese_chars chars vowel_mask then raw
    else if 0 < st.last_tone_char then
      apply_tone_in_place chars vowel_mask (m.tone st.last_tone_char)
    else chars

/-- Engine state: raw buffer, output buffer, selected input method
(src/engine.rs lines 26-31, with the std String buffer backend of
src/buffers.rs). -/
structure Engine where
  raw_buffer : List Char
  out_buffer : List Char
  input_method : InputMethod
deriving DecidableEq, Repr

/-- UltraFastViEngine::new (src/engine.rs lines 34-42). -/
def Engine.new : Engine :=
  { raw_buffer := [], out_buffer := [], input_method := InputMethod.telex }

/-- feed of src/engine.rs lines 58-67: whitespace renders, flushes the raw
buffer and appends the whitespace; any other key is ASCII-lowercased,
appended, and the buffer re-rendered.  Returns the new state and the view
of the output buffer. -/
def feed (e : Engine) (key : Char) : Engine × List Char :=
  if is_whitespace key then
    let out := render_str (mode_for e.input_method) e.raw_buffer ++ [key]
    ({ raw_buffer := [], out_buffer := out, input_method := e.input_method }, out)
  else
    let raw2 := e.raw_buffer ++ [to_ascii_lowercase key]
    let out := render_str (mode_for e.input_method) raw2
    ({ raw_buffer := raw2, out_buffer := out, input_method := e.input_method }, out)

/-- Feed a whole key sequence into a fresh engine and return the view
after the last keystroke (the type_seq helper of src/tests.rs). -/
def type_seq (keys : List Char) : List Char :=
  (keys.foldl (fun p c => feed p.1 c) (Engine.new, [])).2

/-- Bounds-checked append: toggled[t_len] = b with t_len += 1 on a [u8; 32]
panics when t_len ≥ 32; the checked model returns none there. -/
def cpush (l : List Nat) (b : Nat) : Option (List Nat) :=
  if l.length < 32 then some (l ++ [b]) else none

/-- Bounds-checked splice: copy_within(i..len, i+1) followed by buf[i] = b
on a [u8; 32] panics when len ≥ 32 or i > len. -/
def cinsert (l : List Nat) (i : Nat) (b : Nat) : Option (List Nat) :=
  if l.length < 32 ∧ i ≤ l.length then some (insertAt l i b) else none

/-- Bounds-checked t_len -= 1: underflows (and the subsequent write goes
out of bounds) when the buffer is empty. -/
def cdropLast (l : List Nat) : Option (List Nat) :=
  if l = [] then none else some l.dropLast

/-- Bounds-checked variant of the phase-1 step p1Step. -/
def p1StepC (m : Mode) (first : Bool) (prev : Nat) (b : Nat) (st : P1State) : Option P1State :=
  if m.classify b &&& IS_TONE_KEY ≠ 0 then
    if first then
      (cpush st.toggled b).map (fun t => { st with run_char := b, run_count := 1, toggled := t })
    else if b = 'r'.toNat ∧ rClusterPrev prev then
      (cpush st.toggled b).map (fun t => { st with run_char := b, run_count := 1, toggled := t })
    else if b = st.last_tone_char then
      some { st with
             toggled := if st.toggled.length < 32 then st.toggled ++ [b] else st.toggled,
             last_tone_char := 0, tone_cancelled := true }
    else if st.tone_cancelled then
      some { st with toggled := if st.toggled.length < 32 then st.toggled ++ [b] else st.toggled }
    else
      some { st with last_tone_char := b }
  else
    if b = st.run_char then
      if st.run_count + 1 = 3 ∧ (b = 'a'.toNat ∨ b = 'e'.toNat ∨ b = 'o'.toNat ∨ b = 'd'.toNat) then
        (cdropLast st.toggled).map (fun t => { st with toggled := t, run_count := 1 })
      else
        let st1 := p1Flags b { st with run_count := st.run_count + 1 }
        (cpush st1.toggled b).map (fun t => { st1 with toggled := t })
    else
      let st1 := p1Flags b { st with run_char := b, run_count := 1 }
      (cpush st1.toggled b).map (fun t => { st1 with toggled := t })

/-- Bounds-checked phase-1 loop. -/
def p1GoC (m : Mode) (first : Bool) (prev : Nat) : List Nat → P1State → Option P1State
  | [], st => some st
  | b :: rest, st =>
    match p1StepC m first prev b st with
    | none => none
    | some st2 => p1GoC m false b rest st2

/-- Bounds-checked modifier-bubbling loop. -/
def bubGoC (m : Mode) : List Nat → BubState → Option BubState
  | [], st => some st
  | c :: rest, st =>
    if c = 'w'.toNat ∧ m.enable_w_bubbling then
      match rest with
      | c2 :: rest2 =>
        if c2 = 'w'.toNat then
          match cpush st.buf W_LITERAL with
          | none => none
          | some bf => bubGoC m rest2 { st with buf := bf }
        else
          match cpush st.buf c with
          | none => none
          | some bf => bubGoC m (c2 :: rest2) { st with buf := bf }
      | [] => (cpush st.buf c).map (fun bf => { st with buf := bf })
    else
      match modFlagSlot c with
      | some s =>
        match lpGet st s with
        | some p =>
          match cinsert st.buf (p + 1) c with
          | none => none
          | some bf => bubGoC m rest (lpShift (lpSet { st with buf := bf } s none) (p + 1))
        | none =>
          match cpush st.buf c with
          | none => none
          | some bf => bubGoC m rest (lpSet { st with buf := bf } s (some st.buf.length))
      | none =>
        match cpush st.buf c with
        | none => none
        | some bf => bubGoC m rest { st with buf := bf }

/-- Bounds-checked w-bubbling loop. -/
def wGoC (m : Mode) : List Nat → WState → Option WState
  | [], st => some st
  | c :: rest, st =>
    if c = 'w'.toNat then
      match st.last_target_pos with
      | some tp =>
        match cinsert st.out (tp + 1) 'w'.toNat with
        | none => none
        | some o2 => wGoC m rest { st with out := o2 }
      | none =>
        match cpush st.out 'w'.toNat with
        | none => none
        | some o2 => wGoC m rest { st with out := o2 }
    else
      match cpush st.out c with
      | none => none
      | some o2 =>
        wGoC m rest
          { out := o2,
            last_target_pos := if m.w_target c then some st.out.length else st.last_target_pos }

/-- Bounds-checked phase 2. -/
def phase2C (m : Mode) (st : P1State) : Option (List Nat) :=
  let need_w_pass := st.has_w && m.enable_w_bubbling
  if st.need_mod_bubble || need_w_pass then
    match bubGoC m st.toggled { buf := [], lpA := none, lpE := none, lpO := none, lpD := none } with
    | none => none
    | some bst =>
      if need_w_pass then
        (wGoC m bst.buf { out := [], last_target_pos := none }).map (fun w => w.out)
      else some bst.buf
  else some st.toggled

/-- Bounds-checked resolution loop: clen is c_len, the number of characters
already written to the 32-slot char_buf. -/
def resGoC (m : Mode) (prev : Option Nat) (clen : Nat) : List Nat → Option (List Char)
  | [] => some []
  | c :: rest =>
    if clen < 32 then
      if c = W_LITERAL then (resGoC m (some c) (clen + 1) rest).map (fun l => 'w' :: l)
      else
        let r := (m.resolver c rest.head?).1
        let consumed := (m.resolver c rest.head?).2
        let r2 :=
          if c = 'u'.toNat ∧ consumed = false ∧ uowNext rest = true ∧
              ¬(prev = some 'q'.toNat ∨ prev = some 'Q'.toNat) then 'ư'
          else r
        if consumed then
          match rest with
          | n :: rest2 => (resGoC m (some n) (clen + 1) rest2).map (fun l => r2 :: l)
          | [] => some [r2]
        else (resGoC m (some c) (clen + 1) rest).map (fun l => r2 :: l)
    else none

/-- Bounds-checked validation: the direct chars[0] and chars[1] reads of the
first_vowel_pos == 2 branch (src/engine.rs lines 393-394) fail when the
buffer is shorter. -/
def is_invalidC (chars : List Char) (vowel_mask : Nat) : Option Bool :=
  if vowel_mask = 0 then some (decide (1 < chars.length))
  else
    let mo := (ouMaskAux chars 0).1
    let mu := (ouMaskAux chars 0).2
    if mo &&& (mu >>> 1) ≠ 0 then some true
    else
      let first_vowel_pos := trailingZeros16 vowel_mask
      if 3 ≤ first_vowel_pos then
        some (if first_vowel_pos = 3 ∧ 3 ≤ chars.length ∧ chars.getD 0 ' ' = 'n' ∧
                  chars.getD 1 ' ' = 'g' ∧ chars.getD 2 ' ' = 'h' then false
              else true)
      else if first_vowel_pos = 2 then
        match chars.get? 0, chars.get? 1 with
        | some a, some b =>
          some (if 'a'.toNat ≤ a.toNat ∧ a.toNat ≤ 'z'.toNat ∧ 'a'.toNat ≤ b.toNat ∧ b.toNat ≤ 'z'.toNat then
                  INVALID_PAIR_TABLE (pairIndex a.toNat b.toNat)
                else false)
        | _, _ => none
      else some false

/-- Bounds-checked render_str. -/
def render_strC (m : Mode) (raw : List Char) : Option (List Char) :=
  if raw = [] then some []
  else
    match p1GoC m true 0 ((utf8Bytes raw).take 32) p1Init with
    | none => none
    | some st =>
      match phase2C m st with
      | none => none
      | some toggled =>
        match resGoC m none 0 toggled with
        | none => none
        | some chars =>
          let mask := vowelMask chars
          if mask = 0 && st.last_tone_char ≠ 0 && !st.tone_cancelled &&
              chars.all (fun c => decide (c.toNat < 128)) then some raw
          else
            match is_invalidC chars mask with
            | none => none
            | some true => some raw
            | some false =>
              some (if 0 < st.last_tone_char then
                      apply_tone_in_place chars mask (m.tone st.last_tone_char)
                    else chars)

/-- Bounds-checked feed. -/
def feedC (e : Engine) (key : Char) : Option (Engine × List Char) :=
  if is_whitespace key then
    match render_strC (mode_for e.input_method) e.raw_buffer with
    | none => none
    | some r =>
      some ({ raw_buffer := [], out_buffer := r ++ [key], input_method := e.input_method }, r ++ [key])
  else
    let raw2 := e.raw_buffer ++ [to_ascii_lowercase key]
    match render_strC (mode_for e.input_method) raw2 with
    | none => none
    | some r => some ({ raw_buffer := raw2, out_buffer := r, input_method := e.input_method }, r)

theorem render_str_form (m : Mode) (raw : List Char) :
    render_str m raw =
      if raw = [] then [] else if render_fallback m raw then raw else kept_output m raw := by
  unfold render_str render_fallback vowelless_fallback kept_output pipeChars pipe1 phase1
  by_cases hraw : raw = []
  · simp [hraw]
  · rw [if_neg hraw, if_neg hraw]
    simp only []
    generalize resGo m none (phase2 m (p1Go m true 0 (List.take 32 (utf8Bytes raw)) p1Init)) = chars
    generalize p1Go m true 0 (List.take 32 (utf8Bytes raw)) p1Init = st
    cases hA : (vowelMask chars = 0 && st.last_tone_char ≠ 0 && !st.tone_cancelled &&
        chars.all (fun c => decide (c.toNat < 128)))
    · cases hB : is_invalid_vietnamese_chars chars (vowelMask chars)
      · simp
      · simp
    · simp

theorem p1Flags_toggled (b : Nat) (st : P1State) : (p1Flags b st).toggled = st.toggled := by
  unfold p1Flags
  cases h : modFlagSlot b <;> simp <;> split <;> rfl

theorem p1Flags_run_count (b : Nat) (st : P1State) : (p1Flags b st).run_count = st.run_count := by
  unfold p1Flags
  cases h : modFlagSlot b <;> simp <;> split <;> rfl

theorem p1Flags_run_char (b : Nat) (st : P1State) : (p1Flags b st).run_char = st.run_char := by
  unfold p1Flags
  cases h : modFlagSlot b <;> simp <;> split <;> rfl

theorem p1Flags_last_tone (b : Nat) (st : P1State) : (p1Flags b st).last_tone_char = st.last_tone_char := by
  unfold p1Flags
  cases h : modFlagSlot b <;> simp <;> split <;> rfl

theorem p1Flags_cancelled (b : Nat) (st : P1State) : (p1Flags b st).tone_cancelled = st.tone_cancelled := by
  unfold p1Flags
  cases h : modFlagSlot b <;> simp <;> split <;> rfl

theorem p1Step_toggled_len (m : Mode) (first : Bool) (prev b : Nat) (st : P1State) :
    (p1Step m first prev b st).toggled.length ≤ st.toggled.length + 1 := by
  unfold p1Step
  split_ifs <;>
    simp [p1Flags_toggled, List.length_dropLast] <;>
    omega

theorem p1Step_run (m : Mode) (first : Bool) (prev b : Nat) (st : P1State)
    (h : 2 ≤ st.run_count → st.toggled ≠ []) :
    2 ≤ (p1Step m first prev b st).run_count → (p1Step m first prev b st).toggled ≠ [] := by
  unfold p1Step
  split_ifs <;> simp [p1Flags_toggled, p1Flags_run_count] <;> intro h2 <;> exact h h2

theorem p1StepC_eq (m : Mode) (first : Bool) (prev b : Nat) (st : P1State)
    (hlen : st.toggled.length < 32) (hrun : 2 ≤ st.run_count → st.toggled ≠ []) :
    p1StepC m first prev b st = some (p1Step m first prev b st) := by
  unfold p1StepC p1Step
  split_ifs with h1 h2 h3 h4 h5 h6 h7 <;>
    simp [cpush, cdropLast, p1Flags_toggled, hlen]
  · exact hrun (by omega)

theorem p1Go_len (m : Mode) :
    ∀ (rest : List Nat) (first : Bool) (prev : Nat) (st : P1State),
      (p1Go m first prev rest st).toggled.length ≤ st.toggled.length + rest.length := by
  intro rest
  induction rest with
  | nil => intro first prev st; simp [p1Go]
  | cons b rest ih =>
    intro first prev st
    have h1 := ih false b (p1Step m first prev b st)
    have h2 := p1Step_toggled_len m first prev b st
    simp only [p1Go, List.length_cons]
    omega

theorem p1GoC_eq (m : Mode) :
    ∀ (rest : List Nat) (first : Bool) (prev : Nat) (st : P1State),
      st.toggled.length + rest.length ≤ 32 → (2 ≤ st.run_count → st.toggled ≠ []) →
      p1GoC m first prev rest st = some (p1Go m first prev rest st) := by
  intro rest
  induction rest with
  | nil => intro first prev st _ _; rfl
  | cons b rest ih =>
    intro first prev st hlen hrun
    have hl : st.toggled.length < 32 := by simp at hlen; omega
    have hstep := p1StepC_eq m first prev b st hl hrun
    have h2 := p1Step_toggled_len m first prev b st
    simp only [p1GoC, p1Go, hstep]
    exact ih false b (p1Step m first prev b st)
      (by simp at hlen; omega) (p1Step_run m first prev b st hrun)

theorem insertAt_length (l : List Nat) (i a : Nat) : (insertAt l i a).length = l.length + 1 := by
  simp [insertAt]
  omega

/-- A tracked position is in bounds for a buffer. -/
def lpOk (buf : List Nat) (p : Option Nat) : Prop :=
  ∀ v, p = some v → v < buf.length

theorem lpOk_none (buf : List Nat) : lpOk buf none := by
  intro v h
  cases h

theorem lpOk_append (buf : List Nat) (p : Option Nat) (c : Nat) (h : lpOk buf p) :
    lpOk (buf ++ [c]) p := by
  intro v hv
  have := h v hv
  simp
  omega

theorem lpOk_self_append (buf : List Nat) (c : Nat) : lpOk (buf ++ [c]) (some buf.length) := by
  intro v hv
  cases hv
  simp

theorem lpOk_shift_insert (buf : List Nat) (ia c : Nat) (p : Option Nat) (h : lpOk buf p) :
    lpOk (insertAt buf ia c) (shiftPos ia p) := by
  intro v hv
  rw [insertAt_length]
  cases p with
  | none => cases hv
  | some w =>
    have hw := h w rfl
    simp only [shiftPos] at hv
    split_ifs at hv <;> cases hv <;> omega

/-- All four tracked bubbling positions are in bounds. -/
def bubInv (st : BubState) : Prop :=
  lpOk st.buf st.lpA ∧ lpOk st.buf st.lpE ∧ lpOk st.buf st.lpO ∧ lpOk st.buf st.lpD

theorem bubInv_append (st : BubState) (c : Nat) (h : bubInv st) :
    bubInv { st with buf := st.buf ++ [c] } := by
  obtain ⟨h1, h2, h3, h4⟩ := h
  exact ⟨lpOk_append _ _ _ h1, lpOk_append _ _ _ h2, lpOk_append _ _ _ h3, lpOk_append _ _ _ h4⟩

theorem bubInv_append_track (st : BubState) (s c : Nat) (h : bubInv st) :
    bubInv (lpSet { st with buf := st.buf ++ [c] } s (some st.buf.length)) := by
  obtain ⟨h1, h2, h3, h4⟩ := h
  unfold lpSet bubInv
  split_ifs <;>
    exact ⟨by first | exact lpOk_self_append _ _ | exact lpOk_append _ _ _ h1,
           by first | exact lpOk_self_append _ _ | exact lpOk_append _ _ _ h2,
           by first | exact lpOk_self_append _ _ | exact lpOk_append _ _ _ h3,
           by first | exact lpOk_self_append _ _ | exact lpOk_append _ _ _ h4⟩

theorem shiftPos_none (ia : Nat) : shiftPos ia none = none := rfl

theorem bubInv_splice (st : BubState) (s ia c : Nat) (h : bubInv st) :
    bubInv (lpShift (lpSet { st with buf := insertAt st.buf ia c } s none) ia) := by
  obtain ⟨h1, h2, h3, h4⟩ := h
  unfold lpSet lpShift bubInv
  split_ifs <;>
    exact ⟨by first | (rw [shiftPos_none]; exact lpOk_none _) | exact lpOk_shift_insert _ _ _ _ h1,
           by first | (rw [shiftPos_none]; exact lpOk_none _) | exact lpOk_shift_insert _ _ _ _ h2,
           by first | (rw [shiftPos_none]; exact lpOk_none _) | exact lpOk_shift_insert _ _ _ _ h3,
           by first | (rw [shiftPos_none]; exact lpOk_none _) | exact lpOk_shift_insert _ _ _ _ h4⟩

theorem lpShift_buf (st : BubState) (ia : Nat) : (lpShift st ia).buf = st.buf := rfl

theorem lpSet_buf (st : BubState) (s : Nat) (v : Option Nat) : (lpSet st s v).buf = st.buf := by
  unfold lpSet
  split_ifs <;> rfl

theorem bubGo_len (m : Mode) :
    ∀ (n : Nat) (rest : List Nat), rest.length ≤ n → ∀ st : BubState,
      (bubGo m rest st).buf.length ≤ st.buf.length + rest.length := by
  intro n
  induction n with
  | zero =>
    intro rest h st
    have : rest = [] := List.eq_nil_of_length_eq_zero (by omega)
    subst this
    simp [bubGo]
  | succ n ih =>
    intro rest hr st
    cases rest with
    | nil => simp [bubGo]
    | cons c rest =>
      cases rest with
      | nil =>
        simp only [bubGo]
        split_ifs with hw
        · simp
        · cases hslot : modFlagSlot c with
          | none => simp [bubGo]
          | some s =>
            cases hlp : lpGet st s with
            | none => simp [bubGo, hlp, lpSet_buf]
            | some p => simp [bubGo, hlp, lpShift_buf, lpSet_buf, insertAt_length]
      | cons c2 rest2 =>
        simp only [bubGo]
        split_ifs with hw hw2
        · have := ih rest2 (by simp at hr ⊢; omega) { st with buf := st.buf ++ [W_LITERAL] }
          simp at this ⊢
          omega
        · have := ih (c2 :: rest2) (by simp at hr ⊢; omega) { st with buf := st.buf ++ [c] }
          simp at this ⊢
          omega
        · cases hslot : modFlagSlot c with
          | none =>
            have := ih (c2 :: rest2) (by simp at hr ⊢; omega) { st with buf := st.buf ++ [c] }
            simp [hslot] at this ⊢
            omega
          | some s =>
            cases hlp : lpGet st s with
            | none =>
              have := ih (c2 :: rest2) (by simp at hr ⊢; omega)
                (lpSet { st with buf := st.buf ++ [c] } s (some st.buf.length))
              simp [hslot, hlp, lpSet_buf] at this ⊢
              omega
            | some p =>
              have := ih (c2 :: rest2) (by simp at hr ⊢; omega)
                (lpShift (lpSet { st with buf := insertAt st.buf (p + 1) c } s none) (p + 1))
              simp [hslot, hlp, lpShift_buf, lpSet_buf, insertAt_length] at this ⊢
              omega

theorem lpGet_lt (st : BubState) (s p : Nat) (hinv : bubInv st) (hlp : lpGet st s = some p) :
    p < st.buf.length := by
  obtain ⟨h1, h2, h3, h4⟩ := hinv
  unfold lpGet at hlp
  split_ifs at hlp
  · exact h1 p hlp
  · exact h2 p hlp
  · exact h3 p hlp
  · exact h4 p hlp

theorem bubGoC_eq (m : Mode) :
    ∀ (n : Nat) (rest : List Nat), rest.length ≤ n → ∀ st : BubState,
      st.buf.length + rest.length ≤ 32 → bubInv st →
      bubGoC m rest st = some (bubGo m rest st) := by
  intro n
  induction n with
  | zero =>
    intro rest h st _ _
    have : rest = [] := List.eq_nil_of_length_eq_zero (by omega)
    subst this
    rfl
  | succ n ih =>
    intro rest hr st hlen hinv
    cases rest with
    | nil => rfl
    | cons c rest =>
      have hbuf : st.buf.length < 32 := by simp at hlen; omega
      cases rest with
      | nil =>
        simp only [bubGoC, bubGo]
        split_ifs with hw
        · simp [cpush, hbuf]
        · cases hslot : modFlagSlot c with
          | none => simp [cpush, hbuf, bubGoC, bubGo]
          | some s =>
            cases hlp : lpGet st s with
            | none => simp [cpush, hbuf, hlp, bubGoC, bubGo]
            | some p =>
              have hp : p < st.buf.length := lpGet_lt st s p hinv hlp
              simp [cinsert, hbuf, hlp, Nat.succ_le_of_lt hp, bubGoC, bubGo]
      | cons c2 rest2 =>
        simp only [bubGoC, bubGo]
        split_ifs with hw hw2
        · simp only [cpush, hbuf, if_pos]
          exact ih rest2 (by simp at hr ⊢; omega) { st with buf := st.buf ++ [W_LITERAL] }
            (by simp at hlen ⊢; omega) (bubInv_append st W_LITERAL hinv)
        · simp only [cpush, hbuf, if_pos]
          exact ih (c2 :: rest2) (by simp at hr ⊢; omega) { st with buf := st.buf ++ [c] }
            (by simp at hlen ⊢; omega) (bubInv_append st c hinv)
        · cases hslot : modFlagSlot c with
          | none =>
            simp only [hslot, cpush, hbuf, if_pos]
            exact ih (c2 :: rest2) (by simp at hr ⊢; omega) { st with buf := st.buf ++ [c] }
              (by simp at hlen ⊢; omega) (bubInv_append st c hinv)
          | some s =>
            cases hlp : lpGet st s with
            | none =>
              simp only [hslot, hlp, cpush, hbuf, if_pos]
              exact ih (c2 :: rest2) (by simp at hr ⊢; omega)
                (lpSet { st with buf := st.buf ++ [c] } s (some st.buf.length))
                (by simp [lpSet_buf] at hlen ⊢; omega) (bubInv_append_track st s c hinv)
            | some p =>
              have hp : p < st.buf.length := lpGet_lt st s p hinv hlp
              have hia : p + 1 ≤ st.buf.length := Nat.succ_le_of_lt hp
              simp only [hslot, hlp, cinsert, hbuf, hia, and_self, if_pos, true_and]
              exact ih (c2 :: rest2) (by simp at hr ⊢; omega)
                (lpShift (lpSet { st with buf := insertAt st.buf (p + 1) c } s none) (p + 1))
                (by simp [lpShift_buf, lpSet_buf, insertAt_length] at hlen ⊢; omega)
                (bubInv_splice st s (p + 1) c hinv)

theorem wGo_len (m : Mode) :
    ∀ (rest : List Nat) (st : WState), (wGo m rest st).out.length ≤ st.out.length + rest.length := by
  intro rest
  induction rest with
  | nil => intro st; simp [wGo]
  | cons c rest ih =>
    intro st
    have key : ∀ st2 : WState, st2.out.length ≤ st.out.length + 1 →
        (wGo m rest st2).out.length ≤ st.out.length + (c :: rest).length := by
      intro st2 h2
      have := ih st2
      simp
      omega
    simp only [wGo]
    split_ifs with hw hwt
    · cases hlt : st.last_target_pos with
      | none => exact key _ (by simp)
      | some tp => exact key _ (by simp [insertAt_length])
    · exact key _ (by simp)
    · exact key _ (by simp)

/-- The tracked w anchor is in bounds. -/
def wInv (st : WState) : Prop :=
  ∀ v, st.last_target_pos = some v → v < st.out.length

theorem wGoC_eq (m : Mode) :
    ∀ (rest : List Nat) (st : WState), st.out.length + rest.length ≤ 32 → wInv st →
      wGoC m rest st = some (wGo m rest st) := by
  intro rest
  induction rest with
  | nil => intro st _ _; rfl
  | cons c rest ih =>
    intro st hlen hinv
    have hout : st.out.length < 32 := by simp at hlen; omega
    simp only [wGoC, wGo]
    split_ifs with hw hwt
    · cases hlt : st.last_target_pos with
      | none =>
        simp only [hlt, cpush, hout, if_pos]
        refine ih _ (by simp at hlen ⊢; omega) ?_
        intro v hv
        simp only at hv
        cases hv
      | some tp =>
        have htp : tp + 1 ≤ st.out.length := hinv tp hlt
        simp only [hlt, cinsert]
        rw [if_pos ⟨hout, htp⟩]
        refine ih _ (by simp [insertAt_length] at hlen ⊢; omega) ?_
        intro v hv
        simp only at hv
        cases hv
        rw [insertAt_length]
        omega
    · simp only [cpush, hout, if_pos]
      refine ih _ (by simp at hlen ⊢; omega) ?_
      intro v hv
      simp only at hv
      cases hv
      simp
    · simp only [cpush, hout, if_pos]
      refine ih _ (by simp at hlen ⊢; omega) ?_
      intro v hv
      simp only at hv
      have := hinv v hv
      simp
      omega

theorem resGo_len (m : Mode) :
    ∀ (n : Nat) (rest : List Nat), rest.length ≤ n → ∀ prev : Option Nat,
      (resGo m prev rest).length ≤ rest.length := by
  intro n
  induction n with
  | zero =>
    intro rest h prev
    have : rest = [] := List.eq_nil_of_length_eq_zero (by omega)
    subst this
    simp [resGo]
  | succ n ih =>
    intro rest hr prev
    cases rest with
    | nil => simp [resGo]
    | cons c rest =>
      cases rest with
      | nil =>
        rw [resGo.eq_2]
        simp only []
        split_ifs <;> simp [resGo]
      | cons c2 rest2 =>
        rw [resGo.eq_2]
        simp only []
        split_ifs <;>
          first
            | (have h9 := ih (c2 :: rest2) (by simp at hr ⊢; omega) (some c)
               simp at h9 ⊢
               omega)
            | (have h9 := ih rest2 (by simp at hr ⊢; omega) (some c2)
               simp at h9 ⊢
               omega)
            | (exfalso; simp_all)

set_option maxHeartbeats 1000000 in
theorem resGoC_eq (m : Mode) :
    ∀ (n : Nat) (rest : List Nat), rest.length ≤ n → ∀ (prev : Option Nat) (clen : Nat),
      clen + rest.length ≤ 32 → resGoC m prev clen rest = some (resGo m prev rest) := by
  intro n
  induction n with
  | zero =>
    intro rest h prev clen _
    have : rest = [] := List.eq_nil_of_length_eq_zero (by omega)
    subst this
    rfl
  | succ n ih =>
    intro rest hr prev clen hlen
    cases rest with
    | nil => rfl
    | cons c rest =>
      have hc : clen < 32 := by simp at hlen; omega
      cases rest with
      | nil =>
        rw [resGoC.eq_2, resGo.eq_2]
        simp only []
        rw [if_pos hc]
        split_ifs <;>
          first
            | (simp [resGoC, resGo]; done)
            | rfl
            | (exfalso; simp_all; done)
      | cons c2 rest2 =>
        rw [resGoC.eq_2, resGo.eq_2]
        simp only []
        rw [if_pos hc]
        split_ifs <;>
          first
            | (rw [ih (c2 :: rest2) (by simp at hr ⊢; omega) (some c) (clen + 1)
                 (by simp at hlen ⊢; omega)]
               rfl)
            | (rw [ih rest2 (by simp at hr ⊢; omega) (some c2) (clen + 1)
                 (by simp at hlen ⊢; omega)]
               rfl)
            | (exfalso; simp_all; done)

theorem vmAux_testBit (l : List Char) : ∀ (k i : Nat),
    (vmAux l k).testBit i = true ↔
      (k ≤ i ∧ i < 16 ∧ i - k < l.length ∧ is_vowel_unicode (l.getD (i - k) ' ') = true) := by
  induction l with
  | nil => intro k i; simp [vmAux]
  | cons c rest ih =>
    intro k i
    simp only [vmAux, Nat.testBit_or, Bool.or_eq_true]
    constructor
    · rintro (h | h)
      · split_ifs at h with hc
        · have hik : i = k := by
            rw [Nat.testBit_shiftLeft, Bool.and_eq_true] at h
            obtain ⟨h1, h2⟩ := h
            rw [Nat.testBit_one_eq_true_iff_self_eq_zero] at h2
            have := of_decide_eq_true h1
            omega
          subst hik
          exact ⟨le_rfl, hc.1, by simp [hc.2]⟩
        · simp at h
      · obtain ⟨hk, h16, hlt, hv⟩ := (ih (k + 1) i).mp h
        have hik : k ≤ i := by omega
        have hsub : i - k = (i - (k + 1)) + 1 := by omega
        refine ⟨hik, h16, by simp [hsub]; omega, ?_⟩
        rw [hsub]
        simpa using hv
    · rintro ⟨hk, h16, hlt, hv⟩
      rcases Nat.lt_or_ge k i with hki | hki
      · right
        apply (ih (k + 1) i).mpr
        have hsub : i - k = (i - (k + 1)) + 1 := by omega
        rw [hsub] at hlt hv
        rw [List.getD_cons_succ] at hv
        simp at hlt
        exact ⟨by omega, h16, by omega, hv⟩
      · have hik : i = k := by omega
        subst hik
        left
        rw [if_pos ⟨h16, by simpa using hv⟩]
        rw [Nat.testBit_shiftLeft]
        simp [Nat.testBit_one_eq_true_iff_self_eq_zero]

theorem vowelMask_testBit (chars : List Char) (i : Nat) :
    (vowelMask chars).testBit i = true ↔
      (i < 16 ∧ i < chars.length ∧ is_vowel_unicode (chars.getD i ' ') = true) := by
  have := vmAux_testBit chars 0 i
  simpa [vowelMask] using this

theorem vowelMask_lt (chars : List Char) : vowelMask chars < 65536 := by
  have h : (65536 : Nat) = 2 ^ 16 := by norm_num
  rw [h]
  apply Nat.lt_pow_two_of_testBit
  intro i hi
  rw [Bool.eq_false_iff]
  intro hbit
  have := (vowelMask_testBit chars i).mp hbit
  omega


theorem trailingZeros16_testBit (n : Nat) (h : n ≠ 0) (hlt : n < 65536) :
    n.testBit (trailingZeros16 n) = true ∧ trailingZeros16 n < 16 := by
  unfold trailingZeros16
  cases hfind : (List.range 16).find? (fun i => n.testBit i) with
  | none =>
    exfalso
    apply h
    apply Nat.eq_of_testBit_eq
    intro i
    rw [Nat.zero_testBit]
    by_cases hi : i < 16
    · have := List.find?_eq_none.mp hfind i (List.mem_range.mpr hi)
      simpa using this
    · apply Nat.testBit_lt_two_pow
      calc n < 65536 := hlt
        _ = 2 ^ 16 := by norm_num
        _ ≤ 2 ^ i := Nat.pow_le_pow_right (by norm_num) (by omega)
  | some p =>
    constructor
    · simpa using List.find?_some hfind
    · simpa using List.mem_range.mp (List.mem_of_find?_eq_some hfind)

theorem is_invalidC_eq (chars : List Char) :
    is_invalidC chars (vowelMask chars) =
      some (is_invalid_vietnamese_chars chars (vowelMask chars)) := by
  by_cases h0 : vowelMask chars = 0
  · simp [is_invalidC, is_invalid_vietnamese_chars, h0]
  · by_cases hfvp2 : trailingZeros16 (vowelMask chars) = 2
    · obtain ⟨hbit, -⟩ := trailingZeros16_testBit _ h0 (vowelMask_lt chars)
      rw [hfvp2] at hbit
      obtain ⟨-, hlen2, -⟩ := (vowelMask_testBit chars 2).mp hbit
      rcases chars with - | ⟨a, rest⟩
      · simp at hlen2
      rcases rest with - | ⟨b, rest⟩
      · simp at hlen2
      unfold is_invalidC is_invalid_vietnamese_chars
      rw [if_neg h0, if_neg h0]
      simp only [List.getD_cons_zero, List.getD_cons_succ, List.get?_cons_zero,
        List.get?_cons_succ]
      split_ifs <;> rfl
    · unfold is_invalidC is_invalid_vietnamese_chars
      rw [if_neg h0, if_neg h0]
      simp only []
      split_ifs <;> first | rfl | (exact absurd (by assumption) hfvp2)

theorem phase2_len (m : Mode) (st : P1State) (h : st.toggled.length ≤ 32) :
    (phase2 m st).length ≤ 32 := by
  unfold phase2
  simp only []
  split_ifs
  · refine le_trans (wGo_len m _ { out := [], last_target_pos := none }) ?_
    simpa using le_trans (bubGo_len m st.toggled.length st.toggled le_rfl _) (by simpa using h)
  · simpa using le_trans (bubGo_len m st.toggled.length st.toggled le_rfl _) (by simpa using h)
  · exact h

theorem phase2C_eq (m : Mode) (st : P1State) (hlen : st.toggled.length ≤ 32) :
    phase2C m st = some (phase2 m st) := by
  unfold phase2C phase2
  simp only []
  have hbub := bubGoC_eq m st.toggled.length st.toggled le_rfl
    { buf := [], lpA := none, lpE := none, lpO := none, lpD := none }
    (by simpa using hlen)
    ⟨lpOk_none _, lpOk_none _, lpOk_none _, lpOk_none _⟩
  split_ifs with h1 h2
  · rw [hbub]
    simp only []
    rw [wGoC_eq m _ { out := [], last_target_pos := none }
      (by simpa using le_trans (bubGo_len m st.toggled.length st.toggled le_rfl _) (by simpa using hlen))
      (fun v hv => by cases hv)]
    rfl
  · rw [hbub]
  · rfl

theorem render_strC_eq (m : Mode) (raw : List Char) :
    render_strC m raw = some (render_str m raw) := by
  unfold render_strC render_str phase1
  by_cases hraw : raw = []
  · simp [hraw]
  · rw [if_neg hraw, if_neg hraw]
    simp only []
    rw [p1GoC_eq m ((utf8Bytes raw).take 32) true 0 p1Init (by simp [p1Init])
      (by intro h2; simp [p1Init] at h2)]
    simp only []
    have ht : (p1Go m true 0 ((utf8Bytes raw).take 32) p1Init).toggled.length ≤ 32 := by
      have h1 := p1Go_len m ((utf8Bytes raw).take 32) true 0 p1Init
      have h2 : ((utf8Bytes raw).take 32).length ≤ 32 := by simp
      have h3 : p1Init.toggled.length = 0 := rfl
      omega
    rw [phase2C_eq m _ ht]
    simp only []
    rw [resGoC_eq m (phase2 m (p1Go m true 0 ((utf8Bytes raw).take 32) p1Init)).length _ le_rfl
      none 0 (by simpa using phase2_len m _ ht)]
    simp only []
    split_ifs with hA hB hC hD
    · rfl
    · rw [is_invalidC_eq, hC]
    · rw [Bool.not_eq_true] at hC
      rw [is_invalidC_eq, hC]
    · rw [is_invalidC_eq, hD]
    · rw [Bool.not_eq_true] at hD
      rw [is_invalidC_eq, hD]

theorem feedC_eq (e : Engine) (key : Char) : feedC e key = some (feed e key) := by
  unfold feedC feed
  split_ifs with hw
  · simp only []
    rw [render_strC_eq]
  · simp only []
    rw [render_strC_eq]

theorem char_toNat_ofNat (n : Nat) (h : n < 55296) : (Char.ofNat n).toNat = n := by
  have hv : Nat.isValidChar n := Or.inl h
  simp [Char.ofNat, hv, Char.ofNatAux, Char.toNat, UInt32.toNat, BitVec.toNat_ofNatLt]

/-- C10: feed is a total function: on every engine state and every input
character the bounds-checked pipeline (in which every write into the
32-element scratch buffers of the tone-extraction, bubbling-splice and
resolution loops, every splice index, and every direct character read of
the validator is checked, returning none on any out-of-bounds access)
returns some result, and that result is exactly what the unchecked model
computes. -/
theorem C10_feed_total (e : Engine) (key : Char) : feedC e key = some (feed e key) :=
  feedC_eq e key

/-- C3: for every engine state and every whitespace character, feed renders
the current raw buffer, writes that rendering into the output buffer,
clears the raw buffer, appends the whitespace code point, and returns the
rendering of the pre-call raw buffer followed by that whitespace. -/
theorem C3_whitespace_flush (e : Engine) (key : Char) (hw : is_whitespace key = true) :
    feed e key =
      ({ raw_buffer := [],
         out_buffer := render_str (mode_for e.input_method) e.raw_buffer ++ [key],
         input_method := e.input_method },
       render_str (mode_for e.input_method) e.raw_buffer ++ [key]) := by
  unfold feed
  rw [if_pos hw]

/-- Example engine state used by the C3 witness. -/
def c3_example_engine : Engine :=
  { raw_buffer := ['a', 's'], out_buffer := ['á'], input_method := InputMethod.telex }

theorem C3_witness :
    is_whitespace ' ' = true ∧
      feed c3_example_engine ' ' =
        ({ raw_buffer := [], out_buffer := ['á', ' '], input_method := InputMethod.telex },
         ['á', ' ']) :=
  ⟨by decide, (C3_whitespace_flush c3_example_engine ' ' (by decide)).trans (by decide)⟩

/-- Invariant of the raw buffer that actually holds: no whitespace
character and no uppercase ASCII letter ever remains in it. -/
def raw_ok (l : List Char) : Bool :=
  l.all (fun c => !is_whitespace c &&
    !(decide ('A'.toNat ≤ c.toNat) && decide (c.toNat ≤ 'Z'.toNat)))

/-- C9 counterexample: feeding the non-ASCII, non-whitespace character
U+00C9 appends it to the raw buffer unchanged (to_ascii_lowercase only
maps A..Z), so after this feed the raw buffer does not contain only
lowercase ASCII bytes, refuting the claim as stated. -/
theorem C9_counterexample :
    (feed Engine.new (Char.ofNat 201)).1.raw_buffer = [Char.ofNat 201] ∧
      ¬(Char.ofNat 201).toNat < 128 := by
  constructor
  · rfl
  · decide

/-- C9 amended: after every call to feed, the raw buffer contains no
whitespace character and no uppercase ASCII letter: a whitespace keystroke
clears it, any other keystroke is appended after ASCII-only lowercasing
(non-ASCII characters are appended unchanged, so the buffer need not be
ASCII). -/
theorem C9_raw_buffer_invariant (e : Engine) (key : Char)
    (h : raw_ok e.raw_buffer = true) : raw_ok (feed e key).1.raw_buffer = true := by
  unfold feed
  split_ifs with hw
  · rfl
  · simp only []
    unfold raw_ok at h ⊢
    rw [List.all_append, h]
    simp only [Bool.true_and, List.all_cons, List.all_nil, Bool.and_true]
    have hws0 : is_whitespace key = false := by simpa using hw
    unfold to_ascii_lowercase
    split_ifs with hk
    · have hk2 : 65 ≤ key.toNat ∧ key.toNat ≤ 90 := by
        simpa [show 'A'.toNat = 65 from rfl, show 'Z'.toNat = 90 from rfl] using hk
      have ht : (Char.ofNat (key.toNat + 32)).toNat = key.toNat + 32 :=
        char_toNat_ofNat _ (by omega)
      have hws : is_whitespace (Char.ofNat (key.toNat + 32)) = false := by
        unfold is_whitespace
        rw [ht]
        simp
        omega
      rw [hws]
      simp [ht, show 'A'.toNat = 65 from rfl, show 'Z'.toNat = 90 from rfl]
      omega
    · have hk2 : ¬(65 ≤ key.toNat ∧ key.toNat ≤ 90) := by
        simpa [show 'A'.toNat = 65 from rfl, show 'Z'.toNat = 90 from rfl] using hk
      rw [hws0]
      simp [show 'A'.toNat = 65 from rfl, show 'Z'.toNat = 90 from rfl]
      omega

theorem C9_witness :
    raw_ok Engine.new.raw_buffer = true ∧
      raw_ok (feed Engine.new (Char.ofNat 201)).1.raw_buffer = true :=
  ⟨by decide, C9_raw_buffer_invariant Engine.new (Char.ofNat 201) (by decide)⟩

/-- C8 counterexample: the input byte 0x01 collides with the literal-w
sentinel of the bubbling pass (W_LITERAL = 0x01 is tested unconditionally
in the resolution loop), so fed under Telex it renders as the character w,
not as its own code point U+0001 — refuting the claim at its own example
input. -/
theorem C8_counterexample :
    (feed Engine.new (Char.ofNat 1)).2 = ['w'] ∧ Char.ofNat 1 ≠ 'w' := by
  constructor
  · decide
  · decide

/-- C8 amended: in either input method, a byte the mode classifies as
neither vowel, modifier, nor tone key — other than the byte 0x01, which is
reserved as the literal-w sentinel and renders as w — and for which the
resolver triggers no digraph at this position, passes through the
resolution loop as its own code point. -/
theorem C8_passthrough (meth : InputMethod) (prev : Option Nat) (b : Nat) (rest : List Nat)
    (hclass : (mode_for meth).classify b = 0) (hsent : b ≠ W_LITERAL)
    (hdig : (mode_for meth).resolver b rest.head? = (Char.ofNat b, false)) :
    resGo (mode_for meth) prev (b :: rest) =
      Char.ofNat b :: resGo (mode_for meth) (some b) rest := by
  have hu : b ≠ 'u'.toNat := by
    intro hb
    subst hb
    cases meth <;> exact absurd hclass (by decide)
  rw [resGo.eq_2]
  simp only []
  rw [if_neg hsent]
  simp [hdig, show b ≠ 117 from hu]

theorem C8_witness :
    TELEX_MODE.classify 2 = 0 ∧ (2 : Nat) ≠ W_LITERAL ∧
      resGo TELEX_MODE none [2] = [Char.ofNat 2] ∧
      (feed Engine.new (Char.ofNat 2)).2 = [Char.ofNat 2] :=
  ⟨by decide, by decide,
   (C8_passthrough InputMethod.telex none 2 [] (by decide) (by decide) (by decide)).trans
     (by decide),
   by decide⟩

/-- C7: the uow special case of the resolution loop: a u whose resolver
did not consume, followed by o and w, rewrites to ư unless the previous
byte is q (or Q); the following o,w pair then resolves to ơ; with a q
before the u the rewrite is suppressed; and feeding h,u,o,w,s yields hướ. -/
theorem C7_uow_rewrite :
    (∀ (prev : Option Nat) (rest2 : List Nat),
        prev ≠ some 'q'.toNat → prev ≠ some 'Q'.toNat →
        resGo TELEX_MODE prev ('u'.toNat :: 'o'.toNat :: 'w'.toNat :: rest2) =
          'ư' :: resGo TELEX_MODE (some 'u'.toNat) ('o'.toNat :: 'w'.toNat :: rest2)) ∧
    (∀ rest2 : List Nat,
        resGo TELEX_MODE (some 'u'.toNat) ('o'.toNat :: 'w'.toNat :: rest2) =
          'ơ' :: resGo TELEX_MODE (some 'w'.toNat) rest2) ∧
    (∀ rest2 : List Nat,
        resGo TELEX_MODE (some 'q'.toNat) ('u'.toNat :: 'o'.toNat :: 'w'.toNat :: rest2) =
          'u' :: resGo TELEX_MODE (some 'u'.toNat) ('o'.toNat :: 'w'.toNat :: rest2)) ∧
    type_seq ['h', 'u', 'o', 'w', 's'] = ['h', 'ư', 'ớ'] := by
  refine ⟨?_, ?_, ?_, by decide⟩
  · intro prev rest2 hq hQ
    rw [resGo.eq_2]
    simp [TELEX_MODE, resolve_telex, uowNext, hq, hQ, W_LITERAL]
    exact ⟨hq, hQ⟩
  · intro rest2
    rw [resGo.eq_2]
    simp [TELEX_MODE, resolve_telex, uowNext, W_LITERAL]
  · intro rest2
    rw [resGo.eq_2]
    simp [TELEX_MODE, resolve_telex, uowNext, W_LITERAL]

theorem C7_witness :
    (some 'h'.toNat : Option Nat) ≠ some 'q'.toNat ∧
      (some 'h'.toNat : Option Nat) ≠ some 'Q'.toNat ∧
      resGo TELEX_MODE (some 'h'.toNat) [117, 111, 119] =
        'ư' :: resGo TELEX_MODE (some 117) [111, 119] :=
  ⟨by decide, by decide, C7_uow_rewrite.1 (some 'h'.toNat) [] (by decide) (by decide)⟩

/-- C6 counterexample: in the raw buffer a,r,t,r the tone key r at index 3
equals the remembered last tone key r, yet the English-cluster rule (r
after t) fires first: the key is emitted as content, the remembered tone
key survives, no cancellation happens, and the rendering keeps the hook
tone: ảtr. -/
theorem C6_counterexample :
    (phase1 TELEX_MODE ['a'.toNat, 'r'.toNat, 't'.toNat]).last_tone_char = 'r'.toNat ∧
      classify_telex 'r'.toNat &&& IS_TONE_KEY ≠ 0 ∧
      (phase1 TELEX_MODE ['a'.toNat, 'r'.toNat, 't'.toNat, 'r'.toNat]).tone_cancelled = false ∧
      (phase1 TELEX_MODE ['a'.toNat, 'r'.toNat, 't'.toNat, 'r'.toNat]).last_tone_char = 'r'.toNat ∧
      type_seq ['a', 'r', 't', 'r'] = ['ả', 't', 'r'] := by
  refine ⟨by decide, by decide, by decide, by decide, by decide⟩

/-- C6 amended: under Telex, a tone key at index i > 0 that equals the
currently-remembered last tone key cancels the tone — resetting the
remembered key, setting tone_cancelled, and emitting the key verbatim —
provided the key is not an r preceded by one of t p f c b d g k (the
English-cluster rule fires first); a later tone key in a cancelled
syllable is emitted verbatim without setting a new tone, under the same
proviso; and feeding a,s,s yields the literal output as. -/
theorem C6_double_tap_cancel :
    (∀ (prev b : Nat) (st : P1State),
        TELEX_MODE.classify b &&& IS_TONE_KEY ≠ 0 →
        ¬(b = 'r'.toNat ∧ rClusterPrev prev) →
        b = st.last_tone_char →
        p1Step TELEX_MODE false prev b st =
          { st with
            toggled := if st.toggled.length < 32 then st.toggled ++ [b] else st.toggled,
            last_tone_char := 0, tone_cancelled := true }) ∧
    (∀ (prev b : Nat) (st : P1State),
        TELEX_MODE.classify b &&& IS_TONE_KEY ≠ 0 →
        ¬(b = 'r'.toNat ∧ rClusterPrev prev) →
        b ≠ st.last_tone_char →
        st.tone_cancelled = true →
        p1Step TELEX_MODE false prev b st =
          { st with
            toggled := if st.toggled.length < 32 then st.toggled ++ [b] else st.toggled }) ∧
    type_seq ['a', 's', 's'] = ['a', 's'] := by
  refine ⟨?_, ?_, by decide⟩
  · intro prev b st htone hrc hlast
    unfold p1Step
    rw [if_pos htone]
    simp only [Bool.false_eq_true, if_false]
    rw [if_neg hrc, if_pos hlast]
  · intro prev b st htone hrc hlast hcanc
    unfold p1Step
    rw [if_pos htone]
    simp only [Bool.false_eq_true, if_false]
    rw [if_neg hrc, if_neg (fun h => hlast h), if_pos hcanc]

theorem C6_witness :
    TELEX_MODE.classify 's'.toNat &&& IS_TONE_KEY ≠ 0 ∧
      p1Step TELEX_MODE false 'a'.toNat 's'.toNat
          { toggled := ['a'.toNat], last_tone_char := 's'.toNat, tone_cancelled := false,
            run_char := 'a'.toNat, run_count := 1, seen_mod := 1, need_mod_bubble := false,
            has_w := false } =
        { toggled := ['a'.toNat, 's'.toNat], last_tone_char := 0, tone_cancelled := true,
          run_char := 'a'.toNat, run_count := 1, seen_mod := 1, need_mod_bubble := false,
          has_w := false } :=
  ⟨by decide,
   (C6_double_tap_cancel.1 'a'.toNat 's'.toNat _ (by decide) (by decide) (by decide)).trans
     (by decide)⟩

theorem lpGet_lpShift (st : BubState) (ia s : Nat) :
    lpGet (lpShift st ia) s = shiftPos ia (lpGet st s) := by
  unfold lpGet lpShift
  split_ifs <;> rfl

theorem lpGet_lpSet_self (st : BubState) (s : Nat) (v : Option Nat) :
    lpGet (lpSet st s v) s = v := by
  unfold lpGet lpSet
  split_ifs <;> simp_all

/-- C5 counterexample: feeding h,a,n,a into a fresh Telex engine renders
hân (the bubbling pass yields the four-byte intermediate haan, whose aa
digraph folds to â), not hâna as the claim states. -/
theorem C5_counterexample :
    type_seq ['h', 'a', 'n', 'a'] = ['h', 'â', 'n'] ∧
      type_seq ['h', 'a', 'n', 'a'] ≠ ['h', 'â', 'n', 'a'] := by
  refine ⟨by decide, by decide⟩

/-- C5 amended: when one of a e o d recurs while its first occurrence is
tracked, the bubbling pass splices the new copy immediately after the
tracked occurrence and clears the tracked position; in particular h,a,n,a
produces the intermediate byte sequence haan, which the resolver folds to
the rendering hân, while h,a,n,o renders hano. -/
theorem C5_modifier_bubbling :
    (∀ (st : BubState) (c s p : Nat) (rest : List Nat),
        modFlagSlot c = some s → lpGet st s = some p →
        ∃ st2, bubGo TELEX_MODE (c :: rest) st = bubGo TELEX_MODE rest st2 ∧
          st2.buf = insertAt st.buf (p + 1) c ∧ lpGet st2 s = none) ∧
    phase2 TELEX_MODE (phase1 TELEX_MODE ((utf8Bytes ['h', 'a', 'n', 'a']).take 32)) =
      ['h'.toNat, 'a'.toNat, 'a'.toNat, 'n'.toNat] ∧
    type_seq ['h', 'a', 'n', 'a'] = ['h', 'â', 'n'] ∧
    type_seq ['h', 'a', 'n', 'o'] = ['h', 'a', 'n', 'o'] := by
  refine ⟨?_, by decide, by decide, by decide⟩
  intro st c s p rest hslot hlp
  have hcw : ¬(c = 'w'.toNat ∧ TELEX_MODE.enable_w_bubbling = true) := by
    unfold modFlagSlot at hslot
    split_ifs at hslot <;> simp_all
  refine ⟨lpShift (lpSet { st with buf := insertAt st.buf (p + 1) c } s none) (p + 1),
    ?_, ?_, ?_⟩
  · cases rest with
    | nil =>
      rw [bubGo.eq_3]
      rw [if_neg hcw]
      rw [hslot]
      simp only []
      rw [hlp]
    | cons c2 rest2 =>
      rw [bubGo.eq_2]
      rw [if_neg hcw]
      rw [hslot]
      simp only []
      rw [hlp]
  · rw [lpShift_buf, lpSet_buf]
  · rw [lpGet_lpShift, lpGet_lpSet_self]
    rfl

theorem C5_witness :
    modFlagSlot 'a'.toNat = some 0 ∧
      lpGet { buf := ['h'.toNat, 'a'.toNat, 'n'.toNat], lpA := some 1, lpE := none,
              lpO := none, lpD := none } 0 = some 1 ∧
      ∃ st2,
        bubGo TELEX_MODE ['a'.toNat]
            { buf := ['h'.toNat, 'a'.toNat, 'n'.toNat], lpA := some 1, lpE := none,
              lpO := none, lpD := none } =
          bubGo TELEX_MODE [] st2 ∧
        st2.buf = insertAt ['h'.toNat, 'a'.toNat, 'n'.toNat] 2 'a'.toNat ∧
        lpGet st2 0 = none :=
  ⟨by decide, by decide,
   C5_modifier_bubbling.1
     { buf := ['h'.toNat, 'a'.toNat, 'n'.toNat], lpA := some 1, lpE := none,
       lpO := none, lpD := none }
     'a'.toNat 0 1 [] (by decide) (by decide)⟩

/-- C4 counterexample: with the unbounded (std String) raw buffer, feed
does not drop the 33rd keystroke: the render pass truncates the buffer to
32 bytes, but the foreign-word fallback copies the entire raw buffer, so
the rendering returned for 33 buffered b characters is 33 characters long
and contains the byte beyond the 32nd. -/
theorem C4_counterexample :
    (feed { raw_buffer := List.replicate 32 'b', out_buffer := [],
            input_method := InputMethod.telex } 'b').2 = List.replicate 33 'b' ∧
      (List.replicate 33 'b' : List Char).length = 33 := by
  refine ⟨by decide, by decide⟩

/-- C4 amended: the render pass depends only on the first 32 raw bytes for
everything except the fallback echo: two raw buffers with the same first
32 UTF-8 bytes fall back identically, and whenever the fallback is not
taken they render identically; when the fallback is taken the whole raw
buffer (which may exceed 32 bytes with the std backend) is echoed. -/
theorem C4_truncation (meth : InputMethod) (r1 r2 : List Char)
    (hb : (utf8Bytes r1).take 32 = (utf8Bytes r2).take 32)
    (h1 : r1 ≠ []) (h2 : r2 ≠ []) :
    render_fallback (mode_for meth) r1 = render_fallback (mode_for meth) r2 ∧
      (render_fallback (mode_for meth) r1 = false →
        render_str (mode_for meth) r1 = render_str (mode_for meth) r2) := by
  have hp : pipe1 (mode_for meth) r1 = pipe1 (mode_for meth) r2 := by
    unfold pipe1 phase1
    rw [hb]
  have hc : pipeChars (mode_for meth) r1 = pipeChars (mode_for meth) r2 := by
    unfold pipeChars
    rw [hp]
  have hq : render_fallback (mode_for meth) r1 = render_fallback (mode_for meth) r2 := by
    unfold render_fallback vowelless_fallback
    rw [hp, hc]
  refine ⟨hq, fun hf => ?_⟩
  have hf2 : render_fallback (mode_for meth) r2 = false := hq ▸ hf
  rw [render_str_form, render_str_form, if_neg h1, if_neg h2, hf, hf2]
  simp only [Bool.false_eq_true, if_false]
  unfold kept_output
  rw [hp, hc]

theorem C4_witness :
    ((utf8Bytes (List.replicate 32 'c' ++ ['d'])).take 32 =
        (utf8Bytes (List.replicate 32 'c' ++ ['e'])).take 32) ∧
      render_fallback TELEX_MODE (List.replicate 32 'c' ++ ['d']) =
        render_fallback TELEX_MODE (List.replicate 32 'c' ++ ['e']) :=
  ⟨by decide,
   (C4_truncation InputMethod.telex (List.replicate 32 'c' ++ ['d'])
      (List.replicate 32 'c' ++ ['e']) (by decide) (by decide) (by decide)).1⟩

/-- Open-pair set as the specification lists it: ia iu ua ue ưa ưu ao ae
ai au ay eo eu oi ây âu. -/
def claimOpenPairs : List (Char × Char) :=
  [('i', 'a'), ('i', 'u'), ('u', 'a'), ('u', 'e'), ('ư', 'a'), ('ư', 'u'),
   ('a', 'o'), ('a', 'e'), ('a', 'i'), ('a', 'u'), ('a', 'y'),
   ('e', 'o'), ('e', 'u'), ('o', 'i'), ('â', 'y'), ('â', 'u')]

theorem openPair_mem (f sc : Char) :
    openPair f sc = claimOpenPairs.contains (f, sc) := by
  rw [Bool.eq_iff_iff]
  simp only [openPair, claimOpenPairs, Bool.or_eq_true, Bool.and_eq_true,
    decide_eq_true_eq, List.contains_cons, List.contains_nil, beq_iff_eq, Prod.mk.injEq]
  simp only [and_or_left, or_assoc, Bool.false_eq_true, or_false]

/-- Tone-target choice of the phase-5 procedure as the claim words it:
n = 0 is a no-op (handled by the caller), n = 1 targets the sole vowel,
n ≥ 3 the second vowel; for n = 2 the first vowel when a prefer-first
predicate holds (first in u/ư with second i, or first a modified vowel
ơ ô ê â ă with second a plain vowel), else the second vowel for an open
pair followed by a character, else the first vowel for an open pair with
no coda, else the second vowel; when the rendered buffer begins with q,u
or g,i (the source also accepts the uppercase forms, unreachable after
lowercasing) and the first vowel is at position 1, prefer-first and
open-pair are unset so the second vowel is targeted. -/
def claimTwoTarget (chars : List Char) (first second : Nat) : Nat :=
  let f := chars.getD first (Char.ofNat 0)
  let sc := chars.getD second (Char.ofNat 0)
  let prefer_first := ((f = 'u' || f = 'ư') && sc = 'i') ||
    ((f = 'ơ' || f = 'ô' || f = 'ê' || f = 'â' || f = 'ă') &&
      (sc = 'a' || sc = 'e' || sc = 'i' || sc = 'o' || sc = 'u' || sc = 'y'))
  let open_pair := claimOpenPairs.contains (f, sc)
  let quGi :=
    decide (2 ≤ chars.length) &&
    (((chars.getD 0 (Char.ofNat 0) = 'q' || chars.getD 0 (Char.ofNat 0) = 'Q') &&
      (chars.getD 1 (Char.ofNat 0) = 'u' || chars.getD 1 (Char.ofNat 0) = 'U') &&
      decide (first = 1)) ||
     ((chars.getD 0 (Char.ofNat 0) = 'g' || chars.getD 0 (Char.ofNat 0) = 'G') &&
      (chars.getD 1 (Char.ofNat 0) = 'i' || chars.getD 1 (Char.ofNat 0) = 'I') &&
      decide (first = 1)))
  if quGi then second
  else if prefer_first then first
  else if open_pair then
    if second + 1 < chars.length then second else first
  else second

/-- Phase-5 target as the claim words it, dispatching on the vowel count. -/
def claimPhase5Target (chars : List Char) (mask : Nat) : Nat :=
  let n := countOnes16 mask
  let first := trailingZeros16 mask
  let second := trailingZeros16 (mask &&& (65535 ^^^ (1 <<< first)))
  if n = 1 then first
  else if 3 ≤ n then second
  else claimTwoTarget chars first second

/-- Tone placement as the claim words it: with no vowels the buffer is
unchanged, otherwise the tone lands on exactly the one position chosen by
the phase-5 procedure. -/
def claimApplyTone (chars : List Char) (mask tone : Nat) : List Char :=
  if countOnes16 mask = 0 then chars
  else
    chars.set (claimPhase5Target chars mask)
      (map_vowel_with_tone (chars.getD (claimPhase5Target chars mask) (Char.ofNat 0)) tone)

theorem countOnes16_zero : countOnes16 0 = 0 := by decide

theorem nodup_all_eq_length_le_one (l : List Nat) (a : Nat)
    (hn : l.Nodup) (h : ∀ x ∈ l, x = a) : l.length ≤ 1 := by
  cases l with
  | nil => simp
  | cons x t =>
    cases t with
    | nil => simp
    | cons y t2 =>
      exfalso
      have hx : x = a := h x (by simp)
      have hy : y = a := h y (by simp)
      rcases List.nodup_cons.mp hn with ⟨hx2, -⟩
      exact hx2 (by simp [hx, hy])

theorem mask2_ne_zero (mask : Nat) (h16 : mask < 65536) (h2 : 2 ≤ countOnes16 mask) :
    mask &&& (65535 ^^^ (1 <<< trailingZeros16 mask)) ≠ 0 := by
  intro h0
  have hm0 : mask ≠ 0 := by
    intro h
    rw [h, countOnes16_zero] at h2
    omega
  obtain ⟨hfb, hf16⟩ := trailingZeros16_testBit mask hm0 h16
  have hall : ∀ i, i < 16 → mask.testBit i = true → i = trailingZeros16 mask := by
    intro i hi16 hbit
    by_contra hne
    have hbit2 : (mask &&& (65535 ^^^ (1 <<< trailingZeros16 mask))).testBit i = true := by
      rw [Nat.testBit_and, Nat.testBit_xor, Nat.one_shiftLeft]
      rw [Nat.testBit_two_pow_of_ne (fun h => hne h.symm)]
      have h65535 : (65535 : Nat) = 2 ^ 16 - 1 := by norm_num
      rw [h65535, Nat.testBit_two_pow_sub_one]
      simp [hbit, hi16]
    rw [h0] at hbit2
    simp at hbit2
  have hcount : countOnes16 mask ≤ 1 := by
    unfold countOnes16
    rw [List.countP_eq_length_filter]
    apply nodup_all_eq_length_le_one _ (trailingZeros16 mask)
    · exact (List.nodup_range 16).filter _
    · intro x hx
      rcases List.mem_filter.mp hx with ⟨hxr, hxp⟩
      exact hall x (List.mem_range.mp hxr) (by simpa using hxp)
  omega

theorem claimTwoTarget_cases (chars : List Char) (first second : Nat) :
    claimTwoTarget chars first second = first ∨ claimTwoTarget chars first second = second := by
  unfold claimTwoTarget
  simp only []
  split_ifs <;> simp

theorem ifs_reorder (P OP Q : Bool) (C : Prop) [Decidable C] (first second : Nat) :
    (if P && !Q then first
     else if OP && !Q then (if C then second else first)
     else second) =
    (if Q then second
     else if P then first
     else if OP then (if C then second else first)
     else second) := by
  cases P <;> cases OP <;> cases Q <;> simp

theorem twoVowelTarget_eq (chars : List Char) (first second : Nat) :
    twoVowelTarget chars first second = claimTwoTarget chars first second := by
  unfold twoVowelTarget claimTwoTarget
  simp only []
  simp only [openPair_mem]
  exact ifs_reorder _ _ _ _ _ _

/-- C1: with at least one vowel bit set, apply_tone_in_place always places
the tone at the position the phase-5 procedure chooses (one vowel: that
vowel; three or more: the second vowel; two vowels: the qu/gi prefix exception,
then prefer-first, then the open-pair/coda rule, else the second vowel),
provided every set mask bit indexes into the buffer. -/
theorem C1_tone_placement (chars : List Char) (mask tone : Nat)
    (h16 : mask < 65536)
    (hb : ∀ i, i < 16 → mask.testBit i = true → i < chars.length) :
    apply_tone_in_place chars mask tone = claimApplyTone chars mask tone := by
  unfold apply_tone_in_place claimApplyTone claimPhase5Target
  by_cases h0 : countOnes16 mask = 0
  · rw [if_pos h0, if_pos h0]
  · rw [if_neg h0, if_neg h0]
    simp only []
    have hm0 : mask ≠ 0 := by
      intro h
      rw [h, countOnes16_zero] at h0
      exact h0 rfl
    obtain ⟨hfb, hf16⟩ := trailingZeros16_testBit mask hm0 h16
    have hflen : trailingZeros16 mask < chars.length := hb _ hf16 hfb
    by_cases h1 : countOnes16 mask = 1
    · rw [if_pos h1, if_pos h1, if_pos hflen]
    · have h2 : 2 ≤ countOnes16 mask := by omega
      have hm2 : mask &&& (65535 ^^^ (1 <<< trailingZeros16 mask)) ≠ 0 :=
        mask2_ne_zero mask h16 h2
      have hm2lt : mask &&& (65535 ^^^ (1 <<< trailingZeros16 mask)) < 65536 :=
        lt_of_le_of_lt Nat.and_le_left h16
      obtain ⟨hsb, hs16⟩ := trailingZeros16_testBit _ hm2 hm2lt
      rw [Nat.testBit_and, Bool.and_eq_true] at hsb
      have hslen :
          trailingZeros16 (mask &&& (65535 ^^^ (1 <<< trailingZeros16 mask))) < chars.length :=
        hb _ hs16 hsb.1
      by_cases hc2 : countOnes16 mask = 2
      · rw [if_neg h1, if_pos hc2, if_neg h1, if_neg (by omega : ¬ 3 ≤ countOnes16 mask)]
        rw [twoVowelTarget_eq]
        have hTlt :
            claimTwoTarget chars (trailingZeros16 mask)
              (trailingZeros16 (mask &&& (65535 ^^^ (1 <<< trailingZeros16 mask)))) <
              chars.length := by
          rcases claimTwoTarget_cases chars (trailingZeros16 mask)
            (trailingZeros16 (mask &&& (65535 ^^^ (1 <<< trailingZeros16 mask)))) with hT | hT <;>
            rw [hT]
          · exact hflen
          · exact hslen
        rw [if_pos hTlt]
      · rw [if_neg h1, if_neg hc2, if_neg h1, if_pos (by omega : 3 ≤ countOnes16 mask),
          if_pos hslen]

theorem C1_witness :
    ((6 : Nat) < 65536 ∧
      (∀ i, i < 16 → (6 : Nat).testBit i = true → i < (['t', 'u', 'i'] : List Char).length)) ∧
    apply_tone_in_place ['t', 'u', 'i'] 6 1 = ['t', 'ú', 'i'] :=
  ⟨⟨by decide, by decide⟩,
   (C1_tone_placement ['t', 'u', 'i'] 6 1 (by decide) (by decide)).trans (by decide)⟩

/-- Adjacency test worded by the validation description: some o is
immediately followed by u. -/
def ou_adjacent : List Char → Bool
  | c1 :: c2 :: rest => (c1 = 'o' && c2 = 'u') || ou_adjacent (c2 :: rest)
  | _ => false

/-- Position of the first Vietnamese vowel of the resolved buffer (equal to
the length when there is none). -/
def firstVowelPos : List Char → Nat
  | [] => 0
  | c :: rest => if is_vowel_unicode c then 0 else firstVowelPos rest + 1

/-- The leading three characters are n, g, h. -/
def nghStart (chars : List Char) : Bool :=
  chars.getD 0 ' ' = 'n' && chars.getD 1 ' ' = 'g' && chars.getD 2 ' ' = 'h'

/-- The two leading letters form one of the 24 forbidden onsets. -/
def onsetForbidden (chars : List Char) : Bool :=
  INVALID_PAIRS.contains ((chars.getD 0 ' ').toNat, (chars.getD 1 ' ').toNat)

/-- The echo condition exactly as the claim words it: no-vowel long buffer
(excused when a tone key was stripped and a resolved character is
non-ASCII), o-u adjacency, or the three first-vowel-position rules. -/
def c2_claim_cond (m : Mode) (raw : List Char) : Bool :=
  let st := pipe1 m raw
  let chars := pipeChars m raw
  (vowelMask chars = 0 && decide (1 < chars.length) &&
    !(st.last_tone_char ≠ 0 && chars.any (fun c => decide (128 ≤ c.toNat)))) ||
  ou_adjacent chars ||
  (decide (firstVowelPos chars < chars.length) && decide (4 ≤ firstVowelPos chars)) ||
  (decide (firstVowelPos chars < chars.length) && decide (firstVowelPos chars = 3) &&
    ! nghStart chars) ||
  (decide (firstVowelPos chars < chars.length) && decide (firstVowelPos chars = 2) &&
    onsetForbidden chars)

/-- The echo condition as amended: the no-vowel rule splits into the
pre-validation fallback (tone key stripped, not cancelled, all resolved
characters ASCII, any length) and the unconditional length-two rule with
no non-ASCII excuse. -/
def c2_amended_cond (m : Mode) (raw : List Char) : Bool :=
  let st := pipe1 m raw
  let chars := pipeChars m raw
  (vowelMask chars = 0 && st.last_tone_char ≠ 0 && !st.tone_cancelled &&
    chars.all (fun c => decide (c.toNat < 128))) ||
  (vowelMask chars = 0 && decide (1 < chars.length)) ||
  ou_adjacent chars ||
  (decide (firstVowelPos chars < chars.length) && decide (4 ≤ firstVowelPos chars)) ||
  (decide (firstVowelPos chars < chars.length) && decide (firstVowelPos chars = 3) &&
    ! nghStart chars) ||
  (decide (firstVowelPos chars < chars.length) && decide (firstVowelPos chars = 2) &&
    onsetForbidden chars)

theorem pipeChars_len (m : Mode) (raw : List Char) : (pipeChars m raw).length ≤ 32 := by
  unfold pipeChars pipe1
  refine le_trans
    (resGo_len m (phase2 m (phase1 m ((utf8Bytes raw).take 32))).length _ le_rfl none) ?_
  apply phase2_len
  unfold phase1
  refine le_trans (p1Go_len m _ true 0 p1Init) ?_
  simp [p1Init]

theorem find_range_min (p : Nat → Bool) :
    ∀ (n t : Nat), (List.range n).find? p = some t → ∀ j, j < t → p j = false := by
  intro n
  induction n with
  | zero => intro t h; simp at h
  | succ n ih =>
    intro t h j hj
    rw [List.range_succ, List.find?_append] at h
    cases hfind : (List.range n).find? p with
    | some u =>
      rw [hfind] at h
      have h2 : some u = some t := h
      obtain rfl := Option.some.inj h2
      exact ih u hfind j hj
    | none =>
      rw [hfind] at h
      have h2 : [n].find? p = some t := h
      by_cases hp : p n = true
      · rw [List.find?_cons_of_pos _ hp] at h2
        obtain rfl := Option.some.inj h2
        have hjr : j ∈ List.range n := List.mem_range.mpr hj
        have := List.find?_eq_none.mp hfind j hjr
        simpa using this
      · rw [List.find?_cons_of_neg _ hp] at h2
        simp at h2

theorem tz16_min (n j : Nat) (hj : j < trailingZeros16 n) (hj16 : j < 16) :
    n.testBit j = false := by
  unfold trailingZeros16 at hj
  cases hfind : (List.range 16).find? (fun i => n.testBit i) with
  | none =>
    have := List.find?_eq_none.mp hfind j (List.mem_range.mpr hj16)
    simpa using this
  | some t =>
    rw [hfind] at hj
    exact find_range_min _ 16 t hfind j (by simpa using hj)

theorem firstVowelPos_spec (chars : List Char) : ∀ (t : Nat),
    t < chars.length → is_vowel_unicode (chars.getD t ' ') = true →
    (∀ j, j < t → is_vowel_unicode (chars.getD j ' ') = false) →
    firstVowelPos chars = t := by
  induction chars with
  | nil => intro t ht; simp at ht
  | cons c rest ih =>
    intro t ht hv hmin
    cases t with
    | zero =>
      simp only [List.getD_cons_zero] at hv
      simp [firstVowelPos, hv]
    | succ t2 =>
      have h0 : is_vowel_unicode c = false := by
        simpa using hmin 0 (by omega)
      simp only [firstVowelPos, h0, Bool.false_eq_true, if_false, Nat.add_right_cancel_iff]
      apply ih t2 (by simpa using ht) (by simpa using hv)
      intro j hj
      simpa using hmin (j + 1) (by omega)

theorem fvp_lt_length_vowel (chars : List Char) :
    firstVowelPos chars < chars.length →
    is_vowel_unicode (chars.getD (firstVowelPos chars) ' ') = true := by
  induction chars with
  | nil => intro h; simp at h
  | cons c rest ih =>
    intro h
    by_cases hc : is_vowel_unicode c = true
    · simp [firstVowelPos, hc]
    · rw [Bool.not_eq_true] at hc
      simp only [firstVowelPos, hc, Bool.false_eq_true, if_false, List.getD_cons_succ]
      apply ih
      simp only [firstVowelPos, hc, Bool.false_eq_true, if_false, List.length_cons] at h
      omega

theorem fvp_eq_tz (chars : List Char) (hm : vowelMask chars ≠ 0) :
    firstVowelPos chars = trailingZeros16 (vowelMask chars) ∧
    trailingZeros16 (vowelMask chars) < chars.length := by
  obtain ⟨hbit, h16⟩ := trailingZeros16_testBit _ hm (vowelMask_lt chars)
  obtain ⟨-, hlen, hv⟩ := (vowelMask_testBit chars _).mp hbit
  refine ⟨firstVowelPos_spec chars _ hlen hv ?_, hlen⟩
  intro j hj
  have hj16 : j < 16 := by omega
  have hbf : (vowelMask chars).testBit j = false := tz16_min _ j hj hj16
  by_contra hvj
  rw [Bool.not_eq_false] at hvj
  have : (vowelMask chars).testBit j = true :=
    (vowelMask_testBit chars j).mpr ⟨hj16, by omega, hvj⟩
  rw [this] at hbf
  exact Bool.true_eq_false.mp hbf

theorem ouMaskAux_fst_testBit (l : List Char) : ∀ (k i : Nat),
    ((ouMaskAux l k).1).testBit i = true ↔
      (k ≤ i ∧ i < 32 ∧ i - k < l.length ∧ l.getD (i - k) ' ' = 'o') := by
  induction l with
  | nil => intro k i; simp [ouMaskAux]
  | cons c rest ih =>
    intro k i
    by_cases hk : 32 ≤ k
    · rw [ouMaskAux, if_pos hk]
      constructor
      · intro h
        simp at h
      · rintro ⟨h1, h2, -, -⟩
        exact (by omega : False).elim
    · rw [ouMaskAux, if_neg hk]
      simp only []
      by_cases hc : c = 'o'
      · rw [if_pos hc]
        rw [Nat.testBit_or, Bool.or_eq_true]
        constructor
        · rintro (h | h)
          · obtain ⟨hk1, h32, hlt, hv⟩ := (ih (k + 1) i).mp h
            have hsub : i - k = (i - (k + 1)) + 1 := by omega
            refine ⟨by omega, h32, by simp [hsub]; omega, ?_⟩
            rw [hsub]
            simpa using hv
          · have hik : i = k := by
              rw [Nat.one_shiftLeft, Nat.testBit_two_pow] at h
              exact (of_decide_eq_true h).symm
            subst hik
            exact ⟨le_rfl, by omega, by simp, by simp [hc]⟩
        · rintro ⟨hk1, h32, hlt, hv⟩
          rcases Nat.lt_or_ge k i with hki | hki
          · left
            apply (ih (k + 1) i).mpr
            have hsub : i - k = (i - (k + 1)) + 1 := by omega
            rw [hsub] at hlt hv
            rw [List.getD_cons_succ] at hv
            simp at hlt
            exact ⟨by omega, h32, by omega, hv⟩
          · right
            have hik : i = k := by omega
            subst hik
            rw [Nat.one_shiftLeft, Nat.testBit_two_pow]
            exact decide_eq_true rfl
      · rw [if_neg hc]
        rw [ih (k + 1) i]
        constructor
        · rintro ⟨hk1, h32, hlt, hv⟩
          have hsub : i - k = (i - (k + 1)) + 1 := by omega
          refine ⟨by omega, h32, by simp [hsub]; omega, ?_⟩
          rw [hsub]
          simpa using hv
        · rintro ⟨hk1, h32, hlt, hv⟩
          have hik : k < i := by
            rcases Nat.lt_or_ge k i with hki | hki
            · exact hki
            · exfalso
              have : i = k := by omega
              subst this
              simp at hv
              exact hc hv
          have hsub : i - k = (i - (k + 1)) + 1 := by omega
          rw [hsub] at hlt hv
          rw [List.getD_cons_succ] at hv
          simp at hlt
          exact ⟨by omega, h32, by omega, hv⟩

theorem ouMaskAux_snd_testBit (l : List Char) : ∀ (k i : Nat),
    ((ouMaskAux l k).2).testBit i = true ↔
      (k ≤ i ∧ i < 32 ∧ i - k < l.length ∧ l.getD (i - k) ' ' = 'u') := by
  induction l with
  | nil => intro k i; simp [ouMaskAux]
  | cons c rest ih =>
    intro k i
    by_cases hk : 32 ≤ k
    · rw [ouMaskAux, if_pos hk]
      constructor
      · intro h
        simp at h
      · rintro ⟨h1, h2, -, -⟩
        exact (by omega : False).elim
    · rw [ouMaskAux, if_neg hk]
      simp only []
      by_cases hc : c = 'u'
      · rw [if_pos hc]
        rw [Nat.testBit_or, Bool.or_eq_true]
        constructor
        · rintro (h | h)
          · obtain ⟨hk1, h32, hlt, hv⟩ := (ih (k + 1) i).mp h
            have hsub : i - k = (i - (k + 1)) + 1 := by omega
            refine ⟨by omega, h32, by simp [hsub]; omega, ?_⟩
            rw [hsub]
            simpa using hv
          · have hik : i = k := by
              rw [Nat.one_shiftLeft, Nat.testBit_two_pow] at h
              exact (of_decide_eq_true h).symm
            subst hik
            exact ⟨le_rfl, by omega, by simp, by simp [hc]⟩
        · rintro ⟨hk1, h32, hlt, hv⟩
          rcases Nat.lt_or_ge k i with hki | hki
          · left
            apply (ih (k + 1) i).mpr
            have hsub : i - k = (i - (k + 1)) + 1 := by omega
            rw [hsub] at hlt hv
            rw [List.getD_cons_succ] at hv
            simp at hlt
            exact ⟨by omega, h32, by omega, hv⟩
          · right
            have hik : i = k := by omega
            subst hik
            rw [Nat.one_shiftLeft, Nat.testBit_two_pow]
            exact decide_eq_true rfl
      · rw [if_neg hc]
        rw [ih (k + 1) i]
        constructor
        · rintro ⟨hk1, h32, hlt, hv⟩
          have hsub : i - k = (i - (k + 1)) + 1 := by omega
          refine ⟨by omega, h32, by simp [hsub]; omega, ?_⟩
          rw [hsub]
          simpa using hv
        · rintro ⟨hk1, h32, hlt, hv⟩
          have hik : k < i := by
            rcases Nat.lt_or_ge k i with hki | hki
            · exact hki
            · exfalso
              have : i = k := by omega
              subst this
              simp at hv
              exact hc hv
          have hsub : i - k = (i - (k + 1)) + 1 := by omega
          rw [hsub] at hlt hv
          rw [List.getD_cons_succ] at hv
          simp at hlt
          exact ⟨by omega, h32, by omega, hv⟩

theorem ou_adjacent_iff (chars : List Char) :
    ou_adjacent chars = true ↔
      ∃ i, i + 1 < chars.length ∧ chars.getD i ' ' = 'o' ∧ chars.getD (i + 1) ' ' = 'u' := by
  induction chars with
  | nil => simp [ou_adjacent]
  | cons c rest ih =>
    cases rest with
    | nil =>
      constructor
      · intro h
        simp [ou_adjacent] at h
      · rintro ⟨i, hi, -, -⟩
        simp only [List.length_cons, List.length_nil] at hi
        exact (by omega : False).elim
    | cons c2 rest2 =>
      rw [ou_adjacent]
      constructor
      · intro h
        rw [Bool.or_eq_true] at h
        rcases h with h | h
        · rw [Bool.and_eq_true] at h
          obtain ⟨h1, h2⟩ := h
          exact ⟨0, by simp, by simpa using of_decide_eq_true h1,
            by simpa using of_decide_eq_true h2⟩
        · obtain ⟨i, hi, ho, hu⟩ := ih.mp h
          refine ⟨i + 1, ?_, by simpa using ho, by simpa using hu⟩
          simp at hi ⊢
          omega
      · rintro ⟨i, hi, ho, hu⟩
        rw [Bool.or_eq_true]
        cases i with
        | zero =>
          left
          simp only [List.getD_cons_zero] at ho
          simp only [List.getD_cons_succ, List.getD_cons_zero] at hu
          simp [ho, hu]
        | succ j =>
          right
          apply ih.mpr
          refine ⟨j, ?_, by simpa using ho, by simpa using hu⟩
          simp at hi ⊢
          omega

theorem ou_bit_iff (chars : List Char) (h32 : chars.length ≤ 32) :
    ((ouMaskAux chars 0).1 &&& ((ouMaskAux chars 0).2 >>> 1) ≠ 0) ↔
      ou_adjacent chars = true := by
  rw [ou_adjacent_iff]
  constructor
  · intro h
    obtain ⟨i, hi⟩ := Nat.ne_zero_implies_bit_true h
    rw [Nat.testBit_and, Bool.and_eq_true] at hi
    obtain ⟨h1, h2⟩ := hi
    rw [Nat.testBit_shiftRight] at h2
    obtain ⟨-, -, hlt1, ho⟩ := (ouMaskAux_fst_testBit chars 0 i).mp h1
    obtain ⟨-, -, hlt2, hu⟩ := (ouMaskAux_snd_testBit chars 0 (1 + i)).mp h2
    simp only [Nat.sub_zero] at hlt1 hlt2 ho hu
    refine ⟨i, by omega, ho, ?_⟩
    have h1i : 1 + i = i + 1 := by omega
    rw [h1i] at hu
    exact hu
  · rintro ⟨i, hi, ho, hu⟩
    intro h0
    have h1 : ((ouMaskAux chars 0).1).testBit i = true :=
      (ouMaskAux_fst_testBit chars 0 i).mpr ⟨by omega, by omega, by simpa using by omega,
        by simpa using ho⟩
    have h2 : (((ouMaskAux chars 0).2) >>> 1).testBit i = true := by
      rw [Nat.testBit_shiftRight]
      apply (ouMaskAux_snd_testBit chars 0 (1 + i)).mpr
      refine ⟨by omega, by omega, by simpa using by omega, ?_⟩
      have h1i : 1 + i = i + 1 := by omega
      simpa [h1i] using hu
    have hb : ((ouMaskAux chars 0).1 &&& ((ouMaskAux chars 0).2 >>> 1)).testBit i = true := by
      rw [Nat.testBit_and, h1, h2]
      rfl
    rw [h0] at hb
    simp at hb

theorem pair_table_mem (a b : Nat) (ha : a < 26) (hb : b < 26) :
    INVALID_PAIR_TABLE (pairIndex (97 + a) (97 + b)) = INVALID_PAIRS.contains (97 + a, 97 + b) := by
  have h : ∀ x, x < 26 → ∀ y, y < 26 →
      INVALID_PAIR_TABLE (pairIndex (97 + x) (97 + y)) =
        INVALID_PAIRS.contains (97 + x, 97 + y) := by decide
  exact h a ha b hb

theorem invalid_pairs_bounds (c1 c2 : Nat) (h : INVALID_PAIRS.contains (c1, c2) = true) :
    97 ≤ c1 ∧ c1 ≤ 122 ∧ 97 ≤ c2 ∧ c2 ≤ 122 := by
  simp only [INVALID_PAIRS, List.contains_cons, List.contains_nil, Bool.or_eq_true,
    beq_iff_eq, Prod.mk.injEq, Bool.false_eq_true, or_false] at h
  simp only [show ('c').toNat = 99 from rfl, show ('l').toNat = 108 from rfl,
    show ('f').toNat = 102 from rfl, show ('b').toNat = 98 from rfl,
    show ('g').toNat = 103 from rfl, show ('s').toNat = 115 from rfl,
    show ('p').toNat = 112 from rfl, show ('r').toNat = 114 from rfl,
    show ('d').toNat = 100 from rfl, show ('k').toNat = 107 from rfl,
    show ('t').toNat = 116 from rfl, show ('q').toNat = 113 from rfl] at h
  omega

theorem invalid_eq_spec (chars : List Char) (h32 : chars.length ≤ 32) :
    is_invalid_vietnamese_chars chars (vowelMask chars) =
      ((vowelMask chars = 0 && decide (1 < chars.length)) ||
       ou_adjacent chars ||
       (decide (firstVowelPos chars < chars.length) && decide (4 ≤ firstVowelPos chars)) ||
       (decide (firstVowelPos chars < chars.length) && decide (firstVowelPos chars = 3) &&
         ! nghStart chars) ||
       (decide (firstVowelPos chars < chars.length) && decide (firstVowelPos chars = 2) &&
         onsetForbidden chars)) := by
  unfold is_invalid_vietnamese_chars
  by_cases hm : vowelMask chars = 0
  · rw [if_pos hm]
    by_cases hl : 1 < chars.length
    · simp only [decide_eq_true hm, decide_eq_true hl, Bool.true_and, Bool.true_or]
    · have hl2 : decide (1 < chars.length) = false := decide_eq_false hl
      rw [hl2]
      have hou : ou_adjacent chars = false := by
        rw [← Bool.not_eq_true, ou_adjacent_iff]
        rintro ⟨i, hi, -, -⟩
        omega
      have hfvp : decide (firstVowelPos chars < chars.length) = false := by
        apply decide_eq_false
        intro hlt
        have hv := fvp_lt_length_vowel chars hlt
        have h16 : firstVowelPos chars < 16 := by omega
        have hbit : (vowelMask chars).testBit (firstVowelPos chars) = true :=
          (vowelMask_testBit chars _).mpr ⟨h16, hlt, hv⟩
        rw [hm] at hbit
        simp at hbit
      rw [hou, hfvp]
      simp
  · rw [if_neg hm]
    simp only []
    obtain ⟨hfeq, hflen⟩ := fvp_eq_tz chars hm
    rw [decide_eq_false hm]
    have hfvd : decide (firstVowelPos chars < chars.length) = true := by
      apply decide_eq_true
      rw [hfeq]
      exact hflen
    rw [hfvd]
    simp only [Bool.false_and, Bool.false_or, Bool.true_and]
    by_cases hou : (ouMaskAux chars 0).1 &&& ((ouMaskAux chars 0).2 >>> 1) ≠ 0
    · rw [if_pos hou, (ou_bit_iff chars h32).mp hou]
      simp
    · rw [if_neg hou]
      have hadj : ou_adjacent chars = false := by
        rw [← Bool.not_eq_true]
        intro hx
        exact hou ((ou_bit_iff chars h32).mpr hx)
      rw [hadj]
      simp only [Bool.false_or]
      rw [← hfeq]
      by_cases h3 : 3 ≤ firstVowelPos chars
      · rw [if_pos h3]
        by_cases h4 : 4 ≤ firstVowelPos chars
        · have hrn : ¬(firstVowelPos chars = 3 ∧ 3 ≤ chars.length ∧ chars.getD 0 ' ' = 'n' ∧
              chars.getD 1 ' ' = 'g' ∧ chars.getD 2 ' ' = 'h') := by
            rintro ⟨hh, -⟩
            omega
          rw [if_neg hrn, decide_eq_true h4]
          simp
        · have hf3 : firstVowelPos chars = 3 := by omega
          by_cases hngh : nghStart chars = true
          · have hb := hngh
            unfold nghStart at hb
            rw [Bool.and_eq_true, Bool.and_eq_true] at hb
            obtain ⟨⟨hn, hg⟩, hh⟩ := hb
            rw [if_pos ⟨hf3, by omega, of_decide_eq_true hn, of_decide_eq_true hg,
              of_decide_eq_true hh⟩]
            rw [hngh]
            simp [hf3]
          · rw [Bool.not_eq_true] at hngh
            have hrn : ¬(firstVowelPos chars = 3 ∧ 3 ≤ chars.length ∧ chars.getD 0 ' ' = 'n' ∧
                chars.getD 1 ' ' = 'g' ∧ chars.getD 2 ' ' = 'h') := by
              rintro ⟨-, -, hn, hg, hh⟩
              unfold nghStart at hngh
              rw [decide_eq_true hn, decide_eq_true hg, decide_eq_true hh] at hngh
              simp at hngh
            rw [if_neg hrn, hngh]
            simp [hf3, decide_eq_false h4]
      · rw [if_neg h3]
        by_cases h2 : firstVowelPos chars = 2
        · rw [if_pos h2]
          rw [decide_eq_false (by omega : ¬ 4 ≤ firstVowelPos chars),
            decide_eq_false (by omega : ¬ firstVowelPos chars = 3), decide_eq_true h2]
          simp only [Bool.false_and, Bool.false_or, Bool.true_and]
          unfold onsetForbidden
          by_cases hg : ('a').toNat ≤ (chars.getD 0 ' ').toNat ∧
              (chars.getD 0 ' ').toNat ≤ ('z').toNat ∧
              ('a').toNat ≤ (chars.getD 1 ' ').toNat ∧ (chars.getD 1 ' ').toNat ≤ ('z').toNat
          · rw [if_pos hg]
            obtain ⟨hg1, hg2, hg3, hg4⟩ := hg
            rw [show ('a').toNat = 97 from rfl] at hg1 hg3
            rw [show ('z').toNat = 122 from rfl] at hg2 hg4
            have e1 : (chars.getD 0 ' ').toNat = 97 + ((chars.getD 0 ' ').toNat - 97) := by
              omega
            have e2 : (chars.getD 1 ' ').toNat = 97 + ((chars.getD 1 ' ').toNat - 97) := by
              omega
            rw [e1, e2]
            exact pair_table_mem _ _ (by omega) (by omega)
          · rw [if_neg hg]
            cases hc : INVALID_PAIRS.contains ((chars.getD 0 ' ').toNat,
                (chars.getD 1 ' ').toNat) with
            | false => rfl
            | true =>
              exfalso
              apply hg
              have hb := invalid_pairs_bounds _ _ hc
              rw [show ('a').toNat = 97 from rfl, show ('z').toNat = 122 from rfl]
              exact hb
        · rw [if_neg h2]
          rw [decide_eq_false (by omega : ¬ 4 ≤ firstVowelPos chars),
            decide_eq_false (by omega : ¬ firstVowelPos chars = 3), decide_eq_false h2]
          simp

theorem render_fallback_eq (m : Mode) (raw : List Char) :
    render_fallback m raw = c2_amended_cond m raw := by
  unfold render_fallback c2_amended_cond vowelless_fallback
  simp only []
  rw [invalid_eq_spec _ (pipeChars_len m raw)]
  simp only [Bool.or_assoc]

theorem kept_output_nil (m : Mode) : kept_output m [] = [] := rfl

/-- C2: the render pass echoes the raw buffer exactly under the amended
validation condition on the resolved sequence: the pre-validation no-vowel
fallback (tone key stripped and not cancelled, all resolved characters
ASCII, any length), or an empty vowel mask with more than one resolved
character (with no non-ASCII excuse), or an o immediately followed by u, or
the first vowel at position four or later, or at position three without a
leading n,g,h, or at position two after a forbidden onset; when the
condition fails the kept rendering is output. -/
theorem C2_validation_fallback (meth : InputMethod) (raw : List Char) :
    render_fallback (mode_for meth) raw = c2_amended_cond (mode_for meth) raw ∧
    render_str (mode_for meth) raw =
      (if c2_amended_cond (mode_for meth) raw = true then raw
       else kept_output (mode_for meth) raw) := by
  refine ⟨render_fallback_eq _ _, ?_⟩
  rw [render_str_form, render_fallback_eq]
  by_cases h : raw = []
  · subst h
    rw [if_pos rfl]
    cases hf : c2_amended_cond (mode_for meth) [] with
    | true => simp
    | false =>
      simp only [Bool.false_eq_true, if_false]
      exact (kept_output_nil _).symm
  · rw [if_neg h]

/-- C2 counterexample: typing t then s leaves no vowel in the single
resolved character, so none of the claim conditions holds, yet the engine
echoes the raw buffer "ts" instead of the kept rendering "t". -/
theorem C2_counterexample :
    render_str (mode_for InputMethod.telex) ['t', 's'] = ['t', 's'] ∧
    c2_claim_cond (mode_for InputMethod.telex) ['t', 's'] = false ∧
    kept_output (mode_for InputMethod.telex) ['t', 's'] = ['t'] := by
  refine ⟨by decide, by decide, by decide⟩

end Uvie
